import Mathlib

/-!
Verification of the guitartutor MIDI generation backend.

The definitions below are a shallow embedding of the Go sources:
the chord symbol resolver from `backend/handlers/api.go` and the
31-pattern MIDI handler snapshot (request façade, pitch resolver,
rhythm pattern engine, SMF encoder).  Machine bytes are `Nat` values
reduced `% 256`, Go `uint32` arithmetic is reduced `% 2^32`, and every
fallible operation (slice indexing out of range, division by a zero
length, the fixed-buffer overflow in `varLen`) returns `Option`,
with `none` standing for a Go runtime panic.
-/

namespace GuitarTutor

/-- The 12-entry sharp-form chromatic table of `api.go` (one literal slice in
the source; assembled here from four chunks, which changes nothing about the
list itself). -/
def chromatic : List String :=
  ["C", "C#", "D"] ++ ["D#", "E", "F"] ++ ["F#", "G", "G#"] ++ ["A", "A#", "B"]

/-- The 5-entry flat-to-sharp normalization table of `api.go`. -/
def flatToSharp (root : String) : Option String :=
  if root = "Db" then some "C#"
  else if root = "Eb" then some "D#"
  else if root = "Gb" then some "F#"
  else if root = "Ab" then some "G#"
  else if root = "Bb" then some "A#"
  else none

/-- Root characters of a chord name: the first character, plus the second
when it is `#` or `b`, mirroring the byte tests in `chordRootIndex`. -/
def rootChars : List Char → List Char
  | [] => []
  | [c] => [c]
  | c :: d :: _ => if d = '#' ∨ d = 'b' then [c, d] else [c]

/-- `chordRootIndex` of `api.go`: the semitone index (0–11) of the root of a
chord name, or -1 if the root cannot be identified. -/
def chordRootIndex (chord : String) : Int :=
  match chord.toList with
  | [] => -1
  | cs =>
    let root := String.mk (rootChars cs)
    let root := (flatToSharp root).getD root
    match chromatic.findIdx? (fun n => n == root) with
    | some i => (i : Int)
    | none => -1

/-- `chordSuffix` of `api.go`: everything after the consumed root characters. -/
def chordSuffix (chord : String) : String :=
  match chord.toList with
  | [] => ""
  | [_] => ""
  | _ :: d :: rest => if d = '#' ∨ d = 'b' then String.mk rest else String.mk (d :: rest)

/-- `transposeChord` of `api.go`.  Go's `%` on `int` is the truncated-division
remainder, modelled by `Int.tmod`. -/
def transposeChord (chord : String) (semitones : Int) : String :=
  let idx := chordRootIndex chord
  if idx = -1 then chord
  else
    let newIdx := Int.tmod (Int.tmod (idx + semitones) 12 + 12) 12
    (chromatic.getD newIdx.toNat "") ++ chordSuffix chord

/-- `getTransposition` of `api.go`: both key names are compared against the
sharp-form chromatic names only; if either lookup fails the result is 0. -/
def getTransposition (fromKey toKey : String) : Int :=
  let fromIdx : Int := ((chromatic.findIdx? (fun n => n == fromKey)).map Int.ofNat).getD (-1)
  let toIdx : Int := ((chromatic.findIdx? (fun n => n == toKey)).map Int.ofNat).getD (-1)
  if fromIdx = -1 ∨ toIdx = -1 then 0
  else Int.tmod (toIdx - fromIdx + 12) 12

/-- The `qualityIntervals` map of the 31-pattern MIDI handler. -/
def qualityIntervals (sfx : String) : Option (List Nat) :=
  if sfx = "" then some [0, 4, 7]
  else if sfx = "m" then some [0, 3, 7]
  else if sfx = "7" then some [0, 4, 7, 10]
  else if sfx = "maj7" then some [0, 4, 7, 11]
  else if sfx = "m7" then some [0, 3, 7, 10]
  else if sfx = "dim" then some [0, 3, 6]
  else if sfx = "aug" then some [0, 4, 8]
  else if sfx = "sus2" then some [0, 2, 7]
  else if sfx = "sus4" then some [0, 5, 7]
  else if sfx = "6" then some [0, 4, 7, 9]
  else if sfx = "m6" then some [0, 3, 7, 9]
  else if sfx = "add9" then some [0, 4, 7, 14]
  else if sfx = "madd9" then some [0, 3, 7, 14]
  else none

/-- Value of a non-empty all-digit character run (the success case of
`strconv.Atoi`). -/
def digitsVal (cs : List Char) : Option Nat :=
  if cs = [] then none
  else cs.foldl (fun acc c =>
    acc.bind (fun a => if c.isDigit then some (a * 10 + (c.toNat - 48)) else none)) (some 0)

/-- `strconv.Atoi` as used by `fretsToMidi`: an optional sign followed by at
least one decimal digit; anything else is an error (`none`). -/
def atoi (s : String) : Option Int :=
  match s.toList with
  | '-' :: rest => (digitsVal rest).map (fun n => -(n : Int))
  | '+' :: rest => (digitsVal rest).map (fun n => (n : Int))
  | cs => (digitsVal cs).map (fun n => (n : Int))

/-- Go `byte(p)` for an `int` value `p`: the low 8 bits. -/
def toByte (p : Int) : Nat := (p.emod 256).toNat

/-- Ascending insertion of `p` into an already sorted list. -/
def insertAsc (p : Int) : List Int → List Int
  | [] => [p]
  | q :: rest => if p ≤ q then p :: q :: rest else q :: insertAsc p rest

/-- `sort.Ints`: ascending sort of a list of integers, modelled as insertion
sort (on integers the ascending reordering of a list is unique, so any
correct sorting algorithm agrees with Go's). -/
def sortInts (l : List Int) : List Int := l.foldr insertAsc []

/-- `fretsToMidi` of the MIDI handler: skip muted (`"x"`) strings and strings
beyond the tuning array, parse the fret number, add it to the open-string
value, sort ascending, deduplicate keeping first occurrences (the `seen` map),
and narrow each pitch to a byte.  No range filtering is performed. -/
def fretsToMidi (frets : List String) (openMidi : List Int) : List Nat :=
  let pitches := frets.enum.filterMap (fun p =>
    if p.2 = "x" ∨ openMidi.length ≤ p.1 then none
    else (atoi p.2).map (fun f => openMidi.getD p.1 0 + f))
  let sorted := sortInts pitches
  (sorted.foldl (fun acc p => if p ∈ acc then acc else acc ++ [p]) []).map toByte

/-- `chordToMidi` of the MIDI handler: chord-quality resolution with the byte
wraparound arithmetic of the Go source (`byte(12*(baseOctave+1)) + byte(root)`
then `+ byte(interval)`). -/
def chordToMidi (chord : String) (baseOctave : Nat) : List Nat :=
  let root := chordRootIndex chord
  let root := if root = -1 then 0 else root
  let intervals := (qualityIntervals (chordSuffix chord)).getD [0, 4, 7]
  let baseMidi := ((12 * (baseOctave + 1)) % 256 + root.toNat % 256) % 256
  intervals.map (fun iv => (baseMidi + iv % 256) % 256)

/-- Fueled digit count for the `for tmp := v; tmp > 0; tmp >>= 7` loop of
`varLen`; structural recursion on the fuel so the kernel can evaluate it. -/
def vlqGroupsAux : Nat → Nat → Nat
  | 0, _ => 0
  | fuel + 1, v => if v = 0 then 0 else vlqGroupsAux fuel (v / 128) + 1

/-- The loop counter `n` of `varLen`: the number of 7-bit groups of `v`.
Fuel `v` suffices because `v / 128 < v` whenever `0 < v`. -/
def vlqGroups (v : Nat) : Nat := vlqGroupsAux v v

/-- `varLen` of the MIDI handler.  The Go source writes into a fixed
`var buf [4]byte`; when the value needs five 7-bit groups (`v ≥ 2^28`) the
write `buf[n-1-i]` indexes position 4 of a 4-byte array and panics, which is
modelled as `none`. -/
def varLen (v : Nat) : Option (List Nat) :=
  if v < 128 then some [v]
  else
    let n := vlqGroups v
    if n ≤ 4 then
      some ((List.range n).map (fun k =>
        let i := n - 1 - k
        let b := (v >>> (i * 7)) &&& 0x7F
        if 0 < i then b ||| 0x80 else b))
    else none

/-- `noteOnEvent`: delta time as a VLQ, status `0x90|ch`, pitch, velocity. -/
def noteOnEvent (delta ch note vel : Nat) : Option (List Nat) :=
  (varLen delta).map (fun out => out ++ [0x90 ||| ch, note, vel])

/-- `noteOffEvent`: delta time as a VLQ, status `0x80|ch`, pitch, velocity 0. -/
def noteOffEvent (delta ch note : Nat) : Option (List Nat) :=
  (varLen delta).map (fun out => out ++ [0x80 ||| ch, note, 0])

/-- `tempoEvent`: delta 0, `FF 51 03`, microseconds-per-quarter as three
big-endian bytes. -/
def tempoEvent (bpm : Nat) : List Nat :=
  let uspq := 60000000 / bpm
  [0x00, 0xFF, 0x51, 0x03, (uspq >>> 16) % 256, (uspq >>> 8) % 256, uspq % 256]

/-- `endOfTrack`: delta 0 plus the `FF 2F 00` meta event. -/
def endOfTrack : List Nat := [0x00, 0xFF, 0x2F, 0x00]

/-- The JSON body of `POST /api/midi`.  The numeric fields are modelled as
`Nat`: the façade (`applyDefaults`) replaces every non-positive Go value by
its default, so the value 0 stands for all of them. -/
structure MidiRequest where
  chords : List String
  tempo : Nat
  pattern : String
  octave : Nat
  beats : Nat
  frets : List (List String)
  openMidi : List Int
  deriving Repr

/-- The defaulting performed by `GenerateMidi` before `buildMidi` is invoked:
tempo ≤ 0 → 120, octave outside 2–6 → 4, beats ≤ 0 → 4, empty pattern →
"quarter". -/
def applyDefaults (req : MidiRequest) : MidiRequest :=
  { req with
    tempo := if req.tempo = 0 then 120 else req.tempo
    octave := if req.octave < 2 ∨ 6 < req.octave then 4 else req.octave
    beats := if req.beats = 0 then 4 else req.beats
    pattern := if req.pattern = "" then "quarter" else req.pattern }

/-- Per-chord note resolution of `buildTrack`: fret data for this chord index
plus a non-empty tuning array wins when it yields a non-empty set; otherwise
the chord-quality table is used. -/
def resolveNotes (req : MidiRequest) (ci : Nat) (chordName : String) : List Nat :=
  let fretNotes :=
    if ci < req.frets.length ∧ 0 < req.openMidi.length then
      fretsToMidi (req.frets.getD ci []) req.openMidi
    else []
  if fretNotes = [] then chordToMidi chordName req.octave else fretNotes

/-- One channel event as appended by `buildTrack`: delta ticks, kind
(NoteOn / NoteOff), pitch byte and velocity byte. -/
structure MEvent where
  delta : Nat
  isOn : Bool
  pitch : Nat
  vel : Nat
  deriving DecidableEq, Repr

def mkOn (delta pitch vel : Nat) : MEvent := ⟨delta, true, pitch, vel⟩

def mkOff (delta pitch : Nat) : MEvent := ⟨delta, false, pitch, 0⟩

/-- The `for j, n := range notes` NoteOn loop: every NoteOn of a simultaneous
group carries delta 0 (inspection of the source shows the delta variable is 0
at every `noteOnEvent` call site). -/
def onsAll (notes : List Nat) (vel : Nat) : List MEvent := notes.map (fun n => mkOn 0 n vel)

/-- The NoteOff loop: the first NoteOff carries the group duration, the rest
delta 0. -/
def offsAll (dur : Nat) : List Nat → List MEvent
  | [] => []
  | n :: rest => mkOff dur n :: rest.map (fun m => mkOff 0 m)

/-- A single picked note: NoteOn at delta 0, NoteOff after `dur` ticks. -/
def notePair (dur pitch vel : Nat) : List MEvent := [mkOn 0 pitch vel, mkOff dur pitch]

/-- The placeholder the source appends for a silent slot:
`noteOnEvent(0, 0, 0, 0)` followed by `noteOffEvent(dur, 0, 0)`. -/
def restPair (dur : Nat) : List MEvent := [mkOn 0 0 0, mkOff dur 0]

/-- Go byte subtraction `n - 12` on a byte value (wraps modulo 256). -/
def bsub12 (n : Nat) : Nat := (n + 244) % 256

/-- Go slice indexing with an `int` index: negative or too-large indexes
panic (`none`). -/
def goIdx (l : List Nat) (i : Int) : Option Nat :=
  if i < 0 then none else l[i.toNat]?

/-- Sequence a list of optional chunks, concatenating on success: the
event/byte-appending loops of `buildTrack`, with `none` (a panic) anywhere
aborting the whole build. -/
def joinM {α : Type} : List (Option (List α)) → Option (List α)
  | [] => some []
  | none :: _ => none
  | some x :: rest => (joinM rest).map (fun r => x ++ r)

/-- One pattern loop: `T` iterations of `body`, appending each iteration's
events. -/
def patLoop (T : Nat) (body : Nat → Option (List MEvent)) : Option (List MEvent) :=
  joinM ((List.range T).map body)

/-- Go `uint32` truncation. -/
def u32 (x : Nat) : Nat := x % 4294967296

/-- The pop-stabs syncopation mask `X . X X . X . .` (the local `pattern`
array of the pop-stabs case). -/
def popStabsHits : List Bool := [true, false, true, true, false, true, false, false]

/-- The "half" case: two block chords, each half the chord duration. -/
def halfCase (notes : List Nat) (chordTicks : Nat) : Option (List MEvent) :=
  let halfTicks := chordTicks / 2
  patLoop 2 (fun _ => some (onsAll notes 100 ++ offsAll halfTicks notes))

/-- The "quarter" case: a block chord on every beat. -/
def quarterCase (notes : List Nat) (beats : Nat) : Option (List MEvent) :=
  patLoop beats (fun _ => some (onsAll notes 100 ++ offsAll 480 notes))

/-- The "arpeggio-up" case: one note at a time, ascending; the Go source
divides by `len(notes)`, a panic (`none`) when the set is empty. -/
def arpeggioUpCase (notes : List Nat) (chordTicks : Nat) : Option (List MEvent) :=
  if notes.length = 0 then none
  else
    let noteDur := chordTicks / notes.length
    some (notes.map (fun n => notePair noteDur n 100)).flatten

/-- The "arpeggio-down" case: one note at a time, descending. -/
def arpeggioDownCase (notes : List Nat) (chordTicks : Nat) : Option (List MEvent) :=
  if notes.length = 0 then none
  else
    let noteDur := chordTicks / notes.length
    some (notes.reverse.map (fun n => notePair noteDur n 100)).flatten

/-- The "boom-chick" case: bass note (root an octave below, with byte
wraparound) on beat 1, chord stabs on the remaining beats. -/
def boomChickCase (notes : List Nat) (beats : Nat) : Option (List MEvent) :=
  (notes[0]?).bind (fun n0 =>
    let bassNote := bsub12 n0
    let upperNotes := if notes.tail = [] then notes else notes.tail
    (patLoop (beats - 1) (fun _ =>
        some (onsAll upperNotes 90 ++ offsAll 480 upperNotes))).map
      (fun rest => notePair 480 bassNote 100 ++ rest))

/-- The "pop-strum" case: D D U D U plus three rest eighths, cyclically. -/
def popStrumCase (notes : List Nat) (chordTicks : Nat) : Option (List MEvent) :=
  let strumPattern : List (Bool × Bool × Nat) :=
    [(true, false, 100), (true, false, 90), (true, true, 80), (true, false, 100),
     (true, true, 80), (false, false, 0), (false, false, 0), (false, false, 0)]
  let totalEighths := chordTicks / 240
  patLoop totalEighths (fun ei =>
    let sp := strumPattern.getD (ei % strumPattern.length) (false, false, 0)
    if sp.1 then
      let ordered := if sp.2.1 then notes.reverse else notes
      some (onsAll ordered sp.2.2 ++ offsAll 240 ordered)
    else some (restPair 240))

/-- The "travis-picking" case: alternating thumb bass with treble upbeats. -/
def travisCase (notes : List Nat) (chordTicks : Nat) : Option (List MEvent) :=
  patLoop (chordTicks / 240) (fun ei =>
    if ei % 2 = 0 then
      (if (ei / 2) % 2 = 0 then notes[0]?
       else if 1 < notes.length then notes[1]? else notes[0]?).map
        (fun n => notePair 240 n 100)
    else
      (goIdx notes ((notes.length : Int) - 1)).map (fun n => notePair 240 n 80))

/-- The "alberti-bass" case: 1-5-3-5 accompaniment with manual clamping. -/
def albertiCase (notes : List Nat) (chordTicks : Nat) : Option (List MEvent) :=
  patLoop (chordTicks / 240) (fun ei =>
    (if ei % 4 = 0 then notes[0]?
     else if ei % 4 = 2 then (if 1 < notes.length then notes[1]? else notes[0]?)
     else if 2 < notes.length then notes[2]?
     else if 1 < notes.length then notes[1]?
     else notes[0]?).map (fun n => notePair 240 n 100))

/-- The "triplet-arpeggio" case: three notes a beat, cycling by index modulo
the set length (a Go modulo-by-zero panic when the set is empty). -/
def tripletCase (notes : List Nat) (chordTicks : Nat) : Option (List MEvent) :=
  patLoop (chordTicks / 160) (fun ti =>
    (notes[ti % notes.length]?).map (fun n => notePair 160 n 100))

/-- The "pop-stabs" case: syncopated block chords on the `X . X X . X . .`
mask, placeholder rests elsewhere. -/
def popStabsCase (notes : List Nat) (chordTicks : Nat) : Option (List MEvent) :=
  patLoop (chordTicks / 240) (fun ei =>
    if popStabsHits.getD (ei % popStabsHits.length) false then
      some (onsAll notes 100 ++ offsAll 240 notes)
    else some (restPair 240))

/-- The "bossa-nova" case: bass on eighths 0 and 4, chords on the
`X . X . . X . X` mask, silence on the remaining off-bass eighths. -/
def bossaCase (notes : List Nat) (chordTicks : Nat) : Option (List MEvent) :=
  let chordPattern := [true, false, true, false, false, true, false, true]
  patLoop (chordTicks / 240) (fun ei =>
    (if ei % 4 = 0 then
        (notes[0]?).map (fun n0 => notePair 240 (bsub12 n0) 100)
      else some []).bind (fun bassPart =>
      some (bassPart ++
        (if chordPattern.getD (ei % 8) false then onsAll notes 90 ++ offsAll 240 notes
         else if ei % 4 ≠ 0 then restPair 240
         else []))))

/-- The "reggae-skank" case: staccato chords on beats 2 and 4 (a quarter of
the beat), placeholder rests elsewhere. -/
def reggaeCase (notes : List Nat) (beats : Nat) : Option (List MEvent) :=
  patLoop beats (fun beat =>
    if beat % 2 = 1 then
      some (onsAll notes 110 ++ offsAll (480 / 4) notes ++ restPair (3 * 480 / 4))
    else some (restPair 480))

/-- The "funk-16th" case: sixteenth syncopation on the `X . . X . . X .` mask. -/
def funkCase (notes : List Nat) (chordTicks : Nat) : Option (List MEvent) :=
  let pattern8 := [true, false, false, true, false, false, true, false]
  patLoop (chordTicks / 120) (fun si =>
    if pattern8.getD (si % 8) false then
      some (onsAll notes 110 ++ offsAll 120 notes)
    else some (restPair 120))

/-- The "jazz-swing" case: the Charleston mask `X . . X . . . .` on eighths. -/
def jazzSwingCase (notes : List Nat) (chordTicks : Nat) : Option (List MEvent) :=
  let pattern8 := [true, false, false, true, false, false, false, false]
  patLoop (chordTicks / 240) (fun ei =>
    if pattern8.getD (ei % 8) false then
      some (onsAll notes 100 ++ offsAll 240 notes)
    else some (restPair 240))

/-- The "rock-8th" case: block chords on every eighth. -/
def rock8thCase (notes : List Nat) (chordTicks : Nat) : Option (List MEvent) :=
  patLoop (chordTicks / 240) (fun _ => some (onsAll notes 110 ++ offsAll 240 notes))

/-- The "let-it-be" case: chord on every beat; on even beats an extra lower
octave root NoteOn, whose NoteOff is emitted on *every* beat. -/
def letItBeCase (notes : List Nat) (beats : Nat) : Option (List MEvent) :=
  patLoop beats (fun beat =>
    (notes[0]?).bind (fun n0 =>
      some (onsAll notes 95
        ++ (if beat % 2 = 0 then [mkOn 0 (bsub12 n0) 100] else [])
        ++ (mkOff 480 (bsub12 n0) :: notes.map (fun n => mkOff 0 n)))))

/-- The "stand-by-me" case: 50s bass line plus backbeat stabs over a fixed
run of 8 eighths. -/
def standByMeCase (notes : List Nat) : Option (List MEvent) :=
  (notes[0]?).bind (fun n0 =>
    let bassNote := bsub12 n0
    let pat : List Nat := [1, 0, 1, 0, 2, 0, 2, 0]
    patLoop 8 (fun ei =>
      let p := pat.getD (ei % pat.length) 0
      if p = 1 then some (notePair 240 bassNote 110)
      else if p = 2 then some (onsAll notes 90 ++ offsAll 240 notes)
      else some (restPair 240)))

/-- The "creep-arpeggio" case: a fixed run of 8 eighths, cycling the set by
index modulo its length. -/
def creepCase (notes : List Nat) : Option (List MEvent) :=
  patLoop 8 (fun ei =>
    (notes[ei % notes.length]?).map (fun n => notePair 240 n 100))

/-- The "twist-and-shout" case: `D . D U . U D U` strums over 8 eighths. -/
def twistCase (notes : List Nat) : Option (List MEvent) :=
  let strumPattern : List (Bool × Bool) :=
    [(true, false), (false, false), (true, false), (true, true),
     (false, false), (true, true), (true, false), (true, true)]
  patLoop 8 (fun ei =>
    let sp := strumPattern.getD (ei % 8) (false, false)
    if sp.1 then
      let ordered := if sp.2 then notes.reverse else notes
      some (onsAll ordered 105 ++ offsAll 240 ordered)
    else some (restPair 240))

/-- The "blues-shuffle" case: swung long-short pairs on every beat. -/
def bluesShuffleCase (notes : List Nat) (beats : Nat) : Option (List MEvent) :=
  let longTicks := 480 * 2 / 3
  let shortTicks := 480 / 3
  patLoop beats (fun _ =>
    some (onsAll notes 110 ++ offsAll longTicks notes
      ++ onsAll notes 90 ++ offsAll shortTicks notes))

/-- The "sweet-home-alabama" case: bass/high picking over 8 eighths; the
`notes[len(notes)-2]` access on eighths 5–7 panics for one-note sets. -/
def sweetHomeCase (notes : List Nat) : Option (List MEvent) :=
  (notes[0]?).bind (fun bassNote =>
    patLoop 8 (fun ei =>
      (if ei % 8 = 0 ∨ ei % 8 = 1 ∨ ei % 8 = 3 then some bassNote
       else (goIdx notes ((notes.length : Int) - 1)).bind (fun hi =>
         if 4 < ei then goIdx notes ((notes.length : Int) - 2) else some hi)).bind
        (fun n =>
          some (notePair 240 n (if ei % 8 = 0 ∨ ei % 8 = 1 ∨ ei % 8 = 3 then 100 else 90)))))

/-- The "stairway-arpeggio" case: fixed per-eighth index sequence
0,1,2,len-1,len-2,1,2,0 with *no* clamping — `notes[1]`, `notes[2]` and
`notes[len-2]` panic for one- or two-note sets. -/
def stairwayCase (notes : List Nat) : Option (List MEvent) :=
  patLoop 8 (fun ei =>
    (if ei % 8 = 0 then notes[0]?
     else if ei % 8 = 1 then notes[1]?
     else if ei % 8 = 2 then notes[2]?
     else if ei % 8 = 3 then goIdx notes ((notes.length : Int) - 1)
     else if ei % 8 = 4 then goIdx notes ((notes.length : Int) - 2)
     else if ei % 8 = 5 then notes[1]?
     else if ei % 8 = 6 then notes[2]?
     else notes[0]?).bind (fun n => some (notePair 240 n 100)))

/-- The "hotel-california" case: 1 3 2 4 arpeggio with index clamping. -/
def hotelCase (notes : List Nat) : Option (List MEvent) :=
  patLoop 8 (fun ei =>
    let idx0 : Int := if ei % 4 = 0 then 0 else if ei % 4 = 1 then 2
      else if ei % 4 = 2 then 1 else 3
    let idx : Int := if (notes.length : Int) ≤ idx0 then (notes.length : Int) - 1 else idx0
    (goIdx notes idx).map (fun n => notePair 240 n 100))

/-- The "wonderwall-strum" case: a fixed 16-slot sixteenth mask. -/
def wonderwallCase (notes : List Nat) : Option (List MEvent) :=
  let pattern16 := [true, false, true, false, true, true, true, false,
                    true, false, true, true, true, true, true, true]
  patLoop 16 (fun si =>
    if pattern16.getD si false then
      some (onsAll notes 100 ++ offsAll 120 notes)
    else some (restPair 120))

/-- The "blackbird-pick" case: bass + high pluck on even eighths, a filler
note on odd eighths. -/
def blackbirdCase (notes : List Nat) : Option (List MEvent) :=
  patLoop 8 (fun ei =>
    if ei % 2 = 0 then
      (notes[0]?).bind (fun n0 =>
        (goIdx notes ((notes.length : Int) - 1)).bind (fun nl =>
          some [mkOn 0 n0 110, mkOn 0 nl 100, mkOff 240 n0, mkOff 0 nl]))
    else
      (notes[1 % notes.length]?).map (fun n => notePair 240 n 80))

/-- The "palm-mute-8th" case: staccato half-length chords on every eighth. -/
def palmMuteCase (notes : List Nat) : Option (List MEvent) :=
  patLoop 8 (fun _ =>
    some (onsAll notes 100 ++ offsAll 120 notes ++ restPair 120))

/-- The "off-beat-8th" case: chords only on the off-beat eighths. -/
def offBeatCase (notes : List Nat) : Option (List MEvent) :=
  patLoop 8 (fun ei =>
    if ei % 2 = 1 then some (onsAll notes 100 ++ offsAll 240 notes)
    else some (restPair 240))

/-- The "country-alt-bass" case: root bass, strum, fifth bass, strum over a
fixed 4 beats; both bass pitches are lowered an octave with byte wraparound. -/
def countryCase (notes : List Nat) : Option (List MEvent) :=
  (notes[0]?).bind (fun n0 =>
    let bassRoot := n0
    let bassFifth := (n0 + 7) % 256
    let bassFifth := if 2 < notes.length then notes.getD 2 0 else bassFifth
    let bassFifth := if 60 < bassFifth then bsub12 bassFifth else bassFifth
    patLoop 4 (fun beat =>
      if beat = 0 then some (notePair 480 (bsub12 bassRoot) 110)
      else if beat = 2 then some (notePair 480 (bsub12 bassFifth) 110)
      else some (onsAll notes 90 ++ offsAll 480 notes)))

/-- The "pima-arpeggio" case: P-i-m-a-m-i index sequence with clamping. -/
def pimaCase (notes : List Nat) : Option (List MEvent) :=
  patLoop 8 (fun ei =>
    let pimaIdxs : List Int := [0, 1, 2, (notes.length : Int) - 1, 2, 1, 0, 1]
    let idx0 := pimaIdxs.getD (ei % 8) 0
    let idx := if (notes.length : Int) ≤ idx0 then (notes.length : Int) - 1 else idx0
    (goIdx notes idx).map (fun n => notePair 240 n 100))

/-- The "four-on-the-floor" case: quarter chords on a fixed 4 beats, accents
on beats 1 and 3. -/
def fourFloorCase (notes : List Nat) : Option (List MEvent) :=
  patLoop 4 (fun beat =>
    let vel := if beat % 2 = 0 then 110 else 90
    some (onsAll notes vel ++ offsAll 480 notes))

/-- The default case ("whole" and every unrecognized name): one block chord
for the entire chord duration. -/
def wholeCase (notes : List Nat) (chordTicks : Nat) : Option (List MEvent) :=
  some (onsAll notes 100 ++ offsAll chordTicks notes)

/-- Per-chord event emission: the `switch req.Pattern` body of `buildTrack`
of the 31-pattern handler, case by case in source order (each case block is
its own definition above).  Each Go slice indexing is modelled by `·[·]?` /
`goIdx` so that an out-of-range access (a Go panic) yields `none`. -/
def chordEvents (pattern : String) (notes : List Nat) (beats : Nat) : Option (List MEvent) :=
  let chordTicks := u32 (480 * u32 beats)
  if pattern = "half" then halfCase notes chordTicks
  else if pattern = "quarter" then quarterCase notes beats
  else if pattern = "arpeggio-up" then arpeggioUpCase notes chordTicks
  else if pattern = "arpeggio-down" then arpeggioDownCase notes chordTicks
  else if pattern = "boom-chick" then boomChickCase notes beats
  else if pattern = "pop-strum" then popStrumCase notes chordTicks
  else if pattern = "travis-picking" then travisCase notes chordTicks
  else if pattern = "alberti-bass" then albertiCase notes chordTicks
  else if pattern = "triplet-arpeggio" then tripletCase notes chordTicks
  else if pattern = "pop-stabs" then popStabsCase notes chordTicks
  else if pattern = "bossa-nova" then bossaCase notes chordTicks
  else if pattern = "reggae-skank" then reggaeCase notes beats
  else if pattern = "funk-16th" then funkCase notes chordTicks
  else if pattern = "jazz-swing" then jazzSwingCase notes chordTicks
  else if pattern = "rock-8th" then rock8thCase notes chordTicks
  else if pattern = "let-it-be" then letItBeCase notes beats
  else if pattern = "stand-by-me" then standByMeCase notes
  else if pattern = "creep-arpeggio" then creepCase notes
  else if pattern = "twist-and-shout" then twistCase notes
  else if pattern = "blues-shuffle" then bluesShuffleCase notes beats
  else if pattern = "sweet-home-alabama" then sweetHomeCase notes
  else if pattern = "stairway-arpeggio" then stairwayCase notes
  else if pattern = "hotel-california" then hotelCase notes
  else if pattern = "wonderwall-strum" then wonderwallCase notes
  else if pattern = "blackbird-pick" then blackbirdCase notes
  else if pattern = "palm-mute-8th" then palmMuteCase notes
  else if pattern = "off-beat-8th" then offBeatCase notes
  else if pattern = "country-alt-bass" then countryCase notes
  else if pattern = "pima-arpeggio" then pimaCase notes
  else if pattern = "four-on-the-floor" then fourFloorCase notes
  else wholeCase notes chordTicks

/-- The channel-event stream of `buildTrack` (tempo meta event and end-of-track
marker excluded): chords in order, each resolved and run through the pattern
engine; a panic anywhere (`none`) aborts the build. -/
def buildTrackEvents (req : MidiRequest) : Option (List MEvent) :=
  joinM (req.chords.enum.map (fun p =>
    chordEvents req.pattern (resolveNotes req p.1 p.2) req.beats))

/-- Byte encoding of one channel event (`noteOnEvent` / `noteOffEvent`). -/
def eventBytes (e : MEvent) : Option (List Nat) :=
  if e.isOn then noteOnEvent e.delta 0 e.pitch e.vel else noteOffEvent e.delta 0 e.pitch

/-- `buildTrack`: the MTrk data bytes — tempo event, the serialized per-chord
pattern events, and the end-of-track marker. -/
def buildTrack (req : MidiRequest) : Option (List Nat) := do
  let es ← buildTrackEvents req
  let body ← joinM (es.map eventBytes)
  pure (tempoEvent req.tempo ++ body ++ endOfTrack)

/-- Big-endian 16-bit encoding (`binary.Write` with `uint16`). -/
def be16 (v : Nat) : List Nat := [(v >>> 8) % 256, v % 256]

/-- Big-endian 32-bit encoding (`binary.Write` with `uint32`). -/
def be32 (v : Nat) : List Nat :=
  [(v >>> 24) % 256, (v >>> 16) % 256, (v >>> 8) % 256, v % 256]

/-- `buildMidi`: the complete SMF — `MThd` header chunk (length 6, format 0,
1 track, division 480) followed by the `MTrk` chunk. -/
def buildMidi (req : MidiRequest) : Option (List Nat) :=
  (buildTrack req).map (fun trackData =>
    [0x4D, 0x54, 0x68, 0x64] ++ be32 6 ++ be16 0 ++ be16 1 ++ be16 480
    ++ [0x4D, 0x54, 0x72, 0x6B] ++ be32 trackData.length ++ trackData)

/-- Tick span of an event stream: the sum of its delta times. -/
def eventsSpan (es : List MEvent) : Nat := (es.map (fun e => e.delta)).sum

/-- Number of NoteOn events for pitch `p`. -/
def countOn (p : Nat) (es : List MEvent) : Nat :=
  (es.filter (fun e => e.isOn && e.pitch == p)).length

/-- Number of NoteOff events for pitch `p`. -/
def countOff (p : Nat) (es : List MEvent) : Nat :=
  (es.filter (fun e => !e.isOn && e.pitch == p)).length

/-- A standard variable-length-quantity reader: 7 data bits per byte,
most-significant group first (the continuation bit is masked off). -/
def vlqDecode (bs : List Nat) : Nat := bs.foldl (fun acc b => acc * 128 + b % 128) 0

/-- An event stream is balanced when every pitch carries as many NoteOn as
NoteOff events. -/
def Balanced (es : List MEvent) : Prop := ∀ p, countOn p es = countOff p es

/-- The 31-entry pattern catalog (the names accepted by the `switch` of
`buildTrack`; any other name falls to the default "whole" behaviour). -/
def patternCatalog : List String :=
  ["whole", "half", "quarter", "arpeggio-up", "arpeggio-down", "boom-chick", "pop-strum",
   "travis-picking", "alberti-bass", "triplet-arpeggio", "pop-stabs", "bossa-nova",
   "reggae-skank", "funk-16th", "jazz-swing", "rock-8th", "let-it-be", "stand-by-me",
   "creep-arpeggio", "twist-and-shout", "blues-shuffle", "sweet-home-alabama",
   "stairway-arpeggio", "hotel-california", "wonderwall-strum", "blackbird-pick",
   "palm-mute-8th", "off-beat-8th", "country-alt-bass", "pima-arpeggio", "four-on-the-floor"]

/-- The §8 boundary request: open-string tuning value 120 with fret 10
(pitch 120 + 10 = 130), whole-note pattern. -/
def boundaryReq : MidiRequest :=
  MidiRequest.mk ["C"] 120 "whole" 4 4 [["10"]] [120]

/-- A fret-mode request whose NoteSet has exactly one note (a single string,
open), under a chosen pattern. -/
def oneStringReq (pattern : String) (v : Int) : MidiRequest :=
  MidiRequest.mk ["C"] 120 pattern 4 4 [["0"]] [v]

/-- A one-chord chord-name request with a chosen pattern and beats value. -/
def oneChordReq (pattern : String) (beats : Nat) : MidiRequest :=
  MidiRequest.mk ["C"] 120 pattern 4 beats [] []

/-- The 2-chord, 4-beat, tempo-120 request of the §8 structural scenario. -/
def twoChordReq (pattern : String) : MidiRequest :=
  MidiRequest.mk ["C", "Am"] 120 pattern 4 4 [] []

/-!  ## Generic lemmas about the event-appending combinators  -/

theorem joinM_map_g {α β : Type} (g : List α → Nat)
    (gadd : ∀ a b, g (a ++ b) = g a + g b)
    (f : β → Option (List α)) (l : List β) (r : List α)
    (h : joinM (l.map f) = some r) :
    g r = (l.map (fun x => g ((f x).getD []))).sum := by
  have g0 : g [] = 0 := by have := gadd [] []; simp at this; omega
  induction l generalizing r with
  | nil =>
    simp only [List.map_nil, joinM] at h
    cases h
    simp [g0]
  | cons x xs ih =>
    simp only [List.map_cons] at h
    cases hfx : f x with
    | none => rw [hfx] at h; exact absurd h (by simp [joinM])
    | some a =>
      rw [hfx] at h
      unfold joinM at h
      cases hr : joinM (xs.map f) with
      | none => rw [hr] at h; simp at h
      | some r' =>
        rw [hr] at h
        simp only [Option.map_some'] at h
        cases h
        simp [gadd, ih r' hr, hfx]

theorem countOn_append (p : Nat) (a b : List MEvent) :
    countOn p (a ++ b) = countOn p a + countOn p b := by
  simp [countOn, List.filter_append]

theorem countOff_append (p : Nat) (a b : List MEvent) :
    countOff p (a ++ b) = countOff p a + countOff p b := by
  simp [countOff, List.filter_append]

theorem eventsSpan_append (a b : List MEvent) :
    eventsSpan (a ++ b) = eventsSpan a + eventsSpan b := by
  simp [eventsSpan]

theorem countOn_onsAll (p : Nat) (notes : List Nat) (vel : Nat) :
    countOn p (onsAll notes vel) = notes.count p := by
  simp [countOn, onsAll, List.filter_map, mkOn, Function.comp_def, List.count]
  rw [List.countP_eq_length_filter]

theorem countOff_onsAll (p : Nat) (notes : List Nat) (vel : Nat) :
    countOff p (onsAll notes vel) = 0 := by
  simp [countOff, onsAll, List.filter_map, mkOn, Function.comp_def]

theorem countOn_offsAll (p : Nat) (dur : Nat) (notes : List Nat) :
    countOn p (offsAll dur notes) = 0 := by
  cases notes with
  | nil => rfl
  | cons n ns =>
    simp [offsAll, countOn, mkOff, List.filter_map, Function.comp_def, List.filter]

theorem countOff_offsAll (p : Nat) (dur : Nat) (notes : List Nat) :
    countOff p (offsAll dur notes) = notes.count p := by
  cases notes with
  | nil => rfl
  | cons n ns =>
    simp only [offsAll, countOff, mkOff, List.filter, Bool.not_false, Bool.true_and]
    rw [List.count_cons]
    cases hb : n == p <;>
      simp [hb, List.filter_map, Function.comp_def, List.count, List.countP_eq_length_filter]

theorem balanced_nil : Balanced [] := fun _ => rfl

theorem Balanced.app {a b : List MEvent} (ha : Balanced a) (hb : Balanced b) :
    Balanced (a ++ b) := by
  intro p
  rw [countOn_append, countOff_append, ha p, hb p]

theorem balanced_block (notes : List Nat) (vel dur : Nat) :
    Balanced (onsAll notes vel ++ offsAll dur notes) := by
  intro p
  rw [countOn_append, countOff_append, countOn_onsAll, countOff_onsAll,
    countOn_offsAll, countOff_offsAll]
  omega

theorem balanced_pair (dur pitch vel : Nat) : Balanced (notePair dur pitch vel) := by
  intro p
  simp only [notePair, countOn, countOff, mkOn, mkOff, List.filter]
  cases hb : pitch == p <;> simp [hb]

theorem balanced_restPair (dur : Nat) : Balanced (restPair dur) := by
  intro p
  simp only [restPair, countOn, countOff, mkOn, mkOff, List.filter]
  cases hb : 0 == p <;> simp [hb]

theorem balanced_two (n0 nl d v1 v2 : Nat) :
    Balanced [mkOn 0 n0 v1, mkOn 0 nl v2, mkOff d n0, mkOff 0 nl] := by
  intro p
  simp only [countOn, countOff, mkOn, mkOff, List.filter]
  cases hb : n0 == p <;> cases hc : nl == p <;> simp [hb, hc]

theorem patLoop_balanced (T : Nat) (body : Nat → Option (List MEvent)) (cs : List MEvent)
    (h : patLoop T body = some cs)
    (hb : ∀ i r, body i = some r → Balanced r) : Balanced cs := by
  intro p
  unfold patLoop at h
  rw [joinM_map_g (countOn p) (countOn_append p) body _ cs h,
    joinM_map_g (countOff p) (countOff_append p) body _ cs h]
  congr 1
  apply List.map_congr_left
  intro i _
  cases hfi : body i with
  | none => rfl
  | some r => simpa [hfi] using hb i r hfi p

theorem countOn_flatten (p : Nat) (ls : List (List MEvent)) :
    countOn p ls.flatten = (ls.map (countOn p)).sum := by
  induction ls with
  | nil => rfl
  | cons a as ih => simp [List.flatten_cons, countOn_append, ih]

theorem countOff_flatten (p : Nat) (ls : List (List MEvent)) :
    countOff p ls.flatten = (ls.map (countOff p)).sum := by
  induction ls with
  | nil => rfl
  | cons a as ih => simp [List.flatten_cons, countOff_append, ih]

theorem balanced_flatten (ls : List (List MEvent)) (h : ∀ x ∈ ls, Balanced x) :
    Balanced ls.flatten := by
  intro p
  rw [countOn_flatten, countOff_flatten]
  congr 1
  apply List.map_congr_left
  intro x hx
  exact h x hx p

-- ── per-case balance ──

theorem halfCase_balanced (notes : List Nat) (ct : Nat) (cs : List MEvent)
    (h : halfCase notes ct = some cs) : Balanced cs :=
  patLoop_balanced _ _ _ h (fun _ r hir => by cases hir; exact balanced_block _ _ _)

theorem quarterCase_balanced (notes : List Nat) (b : Nat) (cs : List MEvent)
    (h : quarterCase notes b = some cs) : Balanced cs :=
  patLoop_balanced _ _ _ h (fun _ r hir => by cases hir; exact balanced_block _ _ _)

theorem arpeggioUpCase_balanced (notes : List Nat) (ct : Nat) (cs : List MEvent)
    (h : arpeggioUpCase notes ct = some cs) : Balanced cs := by
  unfold arpeggioUpCase at h
  split_ifs at h
  cases h
  apply balanced_flatten
  intro x hx
  rcases List.mem_map.mp hx with ⟨n, _, rfl⟩
  exact balanced_pair _ _ _

theorem arpeggioDownCase_balanced (notes : List Nat) (ct : Nat) (cs : List MEvent)
    (h : arpeggioDownCase notes ct = some cs) : Balanced cs := by
  unfold arpeggioDownCase at h
  split_ifs at h
  cases h
  apply balanced_flatten
  intro x hx
  rcases List.mem_map.mp hx with ⟨n, _, rfl⟩
  exact balanced_pair _ _ _

theorem boomChickCase_balanced (notes : List Nat) (b : Nat) (cs : List MEvent)
    (h : boomChickCase notes b = some cs) : Balanced cs := by
  unfold boomChickCase at h
  rcases Option.bind_eq_some.mp h with ⟨n0, hn0, h2⟩
  rcases Option.map_eq_some'.mp h2 with ⟨rest, hrest, rfl⟩
  exact Balanced.app (balanced_pair _ _ _)
    (patLoop_balanced _ _ _ hrest (fun _ r hir => by cases hir; exact balanced_block _ _ _))

theorem popStrumCase_balanced (notes : List Nat) (ct : Nat) (cs : List MEvent)
    (h : popStrumCase notes ct = some cs) : Balanced cs := by
  unfold popStrumCase at h
  refine patLoop_balanced _ _ _ h (fun i r hir => ?_)
  simp only [] at hir
  split_ifs at hir <;> cases hir <;>
    first
      | exact balanced_block _ _ _
      | exact balanced_restPair _

theorem travisCase_balanced (notes : List Nat) (ct : Nat) (cs : List MEvent)
    (h : travisCase notes ct = some cs) : Balanced cs := by
  unfold travisCase at h
  refine patLoop_balanced _ _ _ h (fun i r hir => ?_)
  split_ifs at hir <;>
    (rcases Option.map_eq_some'.mp hir with ⟨n, _, rfl⟩; exact balanced_pair _ _ _)

theorem albertiCase_balanced (notes : List Nat) (ct : Nat) (cs : List MEvent)
    (h : albertiCase notes ct = some cs) : Balanced cs := by
  unfold albertiCase at h
  refine patLoop_balanced _ _ _ h (fun i r hir => ?_)
  rcases Option.map_eq_some'.mp hir with ⟨n, _, rfl⟩
  exact balanced_pair _ _ _

theorem tripletCase_balanced (notes : List Nat) (ct : Nat) (cs : List MEvent)
    (h : tripletCase notes ct = some cs) : Balanced cs := by
  unfold tripletCase at h
  refine patLoop_balanced _ _ _ h (fun i r hir => ?_)
  rcases Option.map_eq_some'.mp hir with ⟨n, _, rfl⟩
  exact balanced_pair _ _ _

theorem popStabsCase_balanced (notes : List Nat) (ct : Nat) (cs : List MEvent)
    (h : popStabsCase notes ct = some cs) : Balanced cs := by
  unfold popStabsCase at h
  refine patLoop_balanced _ _ _ h (fun i r hir => ?_)
  split_ifs at hir <;> cases hir
  · exact balanced_block _ _ _
  · exact balanced_restPair _

theorem bossaCase_balanced (notes : List Nat) (ct : Nat) (cs : List MEvent)
    (h : bossaCase notes ct = some cs) : Balanced cs := by
  unfold bossaCase at h
  refine patLoop_balanced _ _ _ h (fun i r hir => ?_)
  simp only [] at hir
  rcases Option.bind_eq_some.mp hir with ⟨bp, hbp, hpure⟩
  cases hpure
  have hb : Balanced bp := by
    split_ifs at hbp
    · rcases Option.map_eq_some'.mp hbp with ⟨n, _, rfl⟩; exact balanced_pair _ _ _
    · cases hbp; exact balanced_nil
  refine hb.app ?_
  split_ifs <;>
    first
      | exact balanced_block _ _ _
      | exact balanced_restPair _
      | exact balanced_nil

theorem reggaeCase_balanced (notes : List Nat) (b : Nat) (cs : List MEvent)
    (h : reggaeCase notes b = some cs) : Balanced cs := by
  unfold reggaeCase at h
  refine patLoop_balanced _ _ _ h (fun i r hir => ?_)
  split_ifs at hir <;> cases hir
  · exact Balanced.app (balanced_block _ _ _) (balanced_restPair _)
  · exact balanced_restPair _

theorem funkCase_balanced (notes : List Nat) (ct : Nat) (cs : List MEvent)
    (h : funkCase notes ct = some cs) : Balanced cs := by
  unfold funkCase at h
  refine patLoop_balanced _ _ _ h (fun i r hir => ?_)
  split_ifs at hir <;> cases hir
  · exact balanced_block _ _ _
  · exact balanced_restPair _

theorem jazzSwingCase_balanced (notes : List Nat) (ct : Nat) (cs : List MEvent)
    (h : jazzSwingCase notes ct = some cs) : Balanced cs := by
  unfold jazzSwingCase at h
  refine patLoop_balanced _ _ _ h (fun i r hir => ?_)
  split_ifs at hir <;> cases hir
  · exact balanced_block _ _ _
  · exact balanced_restPair _

theorem rock8thCase_balanced (notes : List Nat) (ct : Nat) (cs : List MEvent)
    (h : rock8thCase notes ct = some cs) : Balanced cs := by
  unfold rock8thCase at h
  exact patLoop_balanced _ _ _ h (fun _ r hir => by cases hir; exact balanced_block _ _ _)

theorem standByMeCase_balanced (notes : List Nat) (cs : List MEvent)
    (h : standByMeCase notes = some cs) : Balanced cs := by
  unfold standByMeCase at h
  rcases Option.bind_eq_some.mp h with ⟨n0, hn0, h2⟩
  refine patLoop_balanced _ _ _ h2 (fun i r hir => ?_)
  simp only [] at hir
  split_ifs at hir <;> cases hir
  · exact balanced_pair _ _ _
  · exact balanced_block _ _ _
  · exact balanced_restPair _

theorem creepCase_balanced (notes : List Nat) (cs : List MEvent)
    (h : creepCase notes = some cs) : Balanced cs := by
  unfold creepCase at h
  refine patLoop_balanced _ _ _ h (fun i r hir => ?_)
  rcases Option.map_eq_some'.mp hir with ⟨n, _, rfl⟩
  exact balanced_pair _ _ _

theorem twistCase_balanced (notes : List Nat) (cs : List MEvent)
    (h : twistCase notes = some cs) : Balanced cs := by
  unfold twistCase at h
  refine patLoop_balanced _ _ _ h (fun i r hir => ?_)
  simp only [] at hir
  split_ifs at hir <;> cases hir <;>
    first
      | exact balanced_block _ _ _
      | exact balanced_restPair _

theorem bluesShuffleCase_balanced (notes : List Nat) (b : Nat) (cs : List MEvent)
    (h : bluesShuffleCase notes b = some cs) : Balanced cs := by
  unfold bluesShuffleCase at h
  refine patLoop_balanced _ _ _ h (fun i r hir => ?_)
  cases hir
  rw [List.append_assoc]
  exact Balanced.app (balanced_block _ _ _) (balanced_block _ _ _)

theorem sweetHomeCase_balanced (notes : List Nat) (cs : List MEvent)
    (h : sweetHomeCase notes = some cs) : Balanced cs := by
  unfold sweetHomeCase at h
  rcases Option.bind_eq_some.mp h with ⟨n0, hn0, h2⟩
  refine patLoop_balanced _ _ _ h2 (fun i r hir => ?_)
  rcases Option.bind_eq_some.mp hir with ⟨n, _, hpure⟩
  cases hpure
  exact balanced_pair _ _ _

theorem stairwayCase_balanced (notes : List Nat) (cs : List MEvent)
    (h : stairwayCase notes = some cs) : Balanced cs := by
  unfold stairwayCase at h
  refine patLoop_balanced _ _ _ h (fun i r hir => ?_)
  rcases Option.bind_eq_some.mp hir with ⟨n, _, hpure⟩
  cases hpure
  exact balanced_pair _ _ _

theorem hotelCase_balanced (notes : List Nat) (cs : List MEvent)
    (h : hotelCase notes = some cs) : Balanced cs := by
  unfold hotelCase at h
  refine patLoop_balanced _ _ _ h (fun i r hir => ?_)
  simp only [] at hir
  rcases Option.map_eq_some'.mp hir with ⟨n, _, rfl⟩
  exact balanced_pair _ _ _

theorem wonderwallCase_balanced (notes : List Nat) (cs : List MEvent)
    (h : wonderwallCase notes = some cs) : Balanced cs := by
  unfold wonderwallCase at h
  refine patLoop_balanced _ _ _ h (fun i r hir => ?_)
  split_ifs at hir <;> cases hir
  · exact balanced_block _ _ _
  · exact balanced_restPair _

theorem blackbirdCase_balanced (notes : List Nat) (cs : List MEvent)
    (h : blackbirdCase notes = some cs) : Balanced cs := by
  unfold blackbirdCase at h
  refine patLoop_balanced _ _ _ h (fun i r hir => ?_)
  split_ifs at hir
  · rcases Option.bind_eq_some.mp hir with ⟨n0, _, h2⟩
    rcases Option.bind_eq_some.mp h2 with ⟨nl, _, hpure⟩
    cases hpure
    exact balanced_two _ _ _ _ _
  · rcases Option.map_eq_some'.mp hir with ⟨n, _, rfl⟩
    exact balanced_pair _ _ _

theorem palmMuteCase_balanced (notes : List Nat) (cs : List MEvent)
    (h : palmMuteCase notes = some cs) : Balanced cs := by
  unfold palmMuteCase at h
  refine patLoop_balanced _ _ _ h (fun i r hir => ?_)
  cases hir
  exact Balanced.app (balanced_block _ _ _) (balanced_restPair _)

theorem offBeatCase_balanced (notes : List Nat) (cs : List MEvent)
    (h : offBeatCase notes = some cs) : Balanced cs := by
  unfold offBeatCase at h
  refine patLoop_balanced _ _ _ h (fun i r hir => ?_)
  split_ifs at hir <;> cases hir
  · exact balanced_block _ _ _
  · exact balanced_restPair _

theorem countryCase_balanced (notes : List Nat) (cs : List MEvent)
    (h : countryCase notes = some cs) : Balanced cs := by
  unfold countryCase at h
  rcases Option.bind_eq_some.mp h with ⟨n0, hn0, h2⟩
  refine patLoop_balanced _ _ _ h2 (fun i r hir => ?_)
  split_ifs at hir <;> cases hir <;>
    first
      | exact balanced_pair _ _ _
      | exact balanced_block _ _ _

theorem pimaCase_balanced (notes : List Nat) (cs : List MEvent)
    (h : pimaCase notes = some cs) : Balanced cs := by
  unfold pimaCase at h
  refine patLoop_balanced _ _ _ h (fun i r hir => ?_)
  simp only [] at hir
  rcases Option.map_eq_some'.mp hir with ⟨n, _, rfl⟩
  exact balanced_pair _ _ _

theorem fourFloorCase_balanced (notes : List Nat) (cs : List MEvent)
    (h : fourFloorCase notes = some cs) : Balanced cs := by
  unfold fourFloorCase at h
  exact patLoop_balanced _ _ _ h (fun _ r hir => by cases hir; exact balanced_block _ _ _)

theorem wholeCase_balanced (notes : List Nat) (ct : Nat) (cs : List MEvent)
    (h : wholeCase notes ct = some cs) : Balanced cs := by
  unfold wholeCase at h
  cases h
  exact balanced_block _ _ _

theorem chordEvents_balanced (pattern : String) (notes : List Nat) (beats : Nat)
    (hp : pattern ≠ "let-it-be") (cs : List MEvent)
    (h : chordEvents pattern notes beats = some cs) : Balanced cs := by
  unfold chordEvents at h
  simp only [] at h
  by_cases hc0 : pattern = "half"
  · rw [if_pos hc0] at h
    exact halfCase_balanced _ _ _ h
  rw [if_neg hc0] at h
  by_cases hc1 : pattern = "quarter"
  · rw [if_pos hc1] at h
    exact quarterCase_balanced _ _ _ h
  rw [if_neg hc1] at h
  by_cases hc2 : pattern = "arpeggio-up"
  · rw [if_pos hc2] at h
    exact arpeggioUpCase_balanced _ _ _ h
  rw [if_neg hc2] at h
  by_cases hc3 : pattern = "arpeggio-down"
  · rw [if_pos hc3] at h
    exact arpeggioDownCase_balanced _ _ _ h
  rw [if_neg hc3] at h
  by_cases hc4 : pattern = "boom-chick"
  · rw [if_pos hc4] at h
    exact boomChickCase_balanced _ _ _ h
  rw [if_neg hc4] at h
  by_cases hc5 : pattern = "pop-strum"
  · rw [if_pos hc5] at h
    exact popStrumCase_balanced _ _ _ h
  rw [if_neg hc5] at h
  by_cases hc6 : pattern = "travis-picking"
  · rw [if_pos hc6] at h
    exact travisCase_balanced _ _ _ h
  rw [if_neg hc6] at h
  by_cases hc7 : pattern = "alberti-bass"
  · rw [if_pos hc7] at h
    exact albertiCase_balanced _ _ _ h
  rw [if_neg hc7] at h
  by_cases hc8 : pattern = "triplet-arpeggio"
  · rw [if_pos hc8] at h
    exact tripletCase_balanced _ _ _ h
  rw [if_neg hc8] at h
  by_cases hc9 : pattern = "pop-stabs"
  · rw [if_pos hc9] at h
    exact popStabsCase_balanced _ _ _ h
  rw [if_neg hc9] at h
  by_cases hc10 : pattern = "bossa-nova"
  · rw [if_pos hc10] at h
    exact bossaCase_balanced _ _ _ h
  rw [if_neg hc10] at h
  by_cases hc11 : pattern = "reggae-skank"
  · rw [if_pos hc11] at h
    exact reggaeCase_balanced _ _ _ h
  rw [if_neg hc11] at h
  by_cases hc12 : pattern = "funk-16th"
  · rw [if_pos hc12] at h
    exact funkCase_balanced _ _ _ h
  rw [if_neg hc12] at h
  by_cases hc13 : pattern = "jazz-swing"
  · rw [if_pos hc13] at h
    exact jazzSwingCase_balanced _ _ _ h
  rw [if_neg hc13] at h
  by_cases hc14 : pattern = "rock-8th"
  · rw [if_pos hc14] at h
    exact rock8thCase_balanced _ _ _ h
  rw [if_neg hc14] at h
  rw [if_neg (show ¬(pattern = "let-it-be") from hp)] at h
  by_cases hc16 : pattern = "stand-by-me"
  · rw [if_pos hc16] at h
    exact standByMeCase_balanced _ _ h
  rw [if_neg hc16] at h
  by_cases hc17 : pattern = "creep-arpeggio"
  · rw [if_pos hc17] at h
    exact creepCase_balanced _ _ h
  rw [if_neg hc17] at h
  by_cases hc18 : pattern = "twist-and-shout"
  · rw [if_pos hc18] at h
    exact twistCase_balanced _ _ h
  rw [if_neg hc18] at h
  by_cases hc19 : pattern = "blues-shuffle"
  · rw [if_pos hc19] at h
    exact bluesShuffleCase_balanced _ _ _ h
  rw [if_neg hc19] at h
  by_cases hc20 : pattern = "sweet-home-alabama"
  · rw [if_pos hc20] at h
    exact sweetHomeCase_balanced _ _ h
  rw [if_neg hc20] at h
  by_cases hc21 : pattern = "stairway-arpeggio"
  · rw [if_pos hc21] at h
    exact stairwayCase_balanced _ _ h
  rw [if_neg hc21] at h
  by_cases hc22 : pattern = "hotel-california"
  · rw [if_pos hc22] at h
    exact hotelCase_balanced _ _ h
  rw [if_neg hc22] at h
  by_cases hc23 : pattern = "wonderwall-strum"
  · rw [if_pos hc23] at h
    exact wonderwallCase_balanced _ _ h
  rw [if_neg hc23] at h
  by_cases hc24 : pattern = "blackbird-pick"
  · rw [if_pos hc24] at h
    exact blackbirdCase_balanced _ _ h
  rw [if_neg hc24] at h
  by_cases hc25 : pattern = "palm-mute-8th"
  · rw [if_pos hc25] at h
    exact palmMuteCase_balanced _ _ h
  rw [if_neg hc25] at h
  by_cases hc26 : pattern = "off-beat-8th"
  · rw [if_pos hc26] at h
    exact offBeatCase_balanced _ _ h
  rw [if_neg hc26] at h
  by_cases hc27 : pattern = "country-alt-bass"
  · rw [if_pos hc27] at h
    exact countryCase_balanced _ _ h
  rw [if_neg hc27] at h
  by_cases hc28 : pattern = "pima-arpeggio"
  · rw [if_pos hc28] at h
    exact pimaCase_balanced _ _ h
  rw [if_neg hc28] at h
  by_cases hc29 : pattern = "four-on-the-floor"
  · rw [if_pos hc29] at h
    exact fourFloorCase_balanced _ _ h
  rw [if_neg hc29] at h
  exact wholeCase_balanced _ _ _ h

/-!  ## Domain lemmas  -/

theorem joinM_map_isSome {α β : Type} (f : β → Option (List α)) (l : List β)
    (h : ∀ x ∈ l, (f x).isSome) : (joinM (l.map f)).isSome := by
  induction l with
  | nil => simp [joinM]
  | cons x xs ih =>
    simp only [List.map_cons]
    cases hfx : f x with
    | none => have := h x (by simp); rw [hfx] at this; simp at this
    | some a =>
      unfold joinM
      cases hr : joinM (xs.map f) with
      | none =>
        have hys : ∀ y ∈ xs, (f y).isSome := fun y hy => h y (List.mem_cons_of_mem _ hy)
        have := ih hys
        rw [hr] at this; simp at this
      | some r' => simp

theorem buildTrackEvents_oneChord (p : String) (b : Nat) :
    buildTrackEvents (oneChordReq p b) = chordEvents p [60, 64, 67] b := by
  unfold buildTrackEvents oneChordReq
  show joinM [chordEvents p (resolveNotes _ 0 "C") b] = _
  rw [show resolveNotes (MidiRequest.mk ["C"] 120 p 4 b [] []) 0 "C" = [60, 64, 67] from rfl]
  cases chordEvents p [60, 64, 67] b <;> simp [joinM]

theorem quarterCase_span (notes : List Nat) (b : Nat) :
    ∃ es, quarterCase notes b = some es ∧
      eventsSpan es = b * eventsSpan (onsAll notes 100 ++ offsAll 480 notes) := by
  have hs := joinM_map_isSome (fun _ => some (onsAll notes 100 ++ offsAll 480 notes))
    (List.range b) (fun x _ => rfl)
  rcases Option.isSome_iff_exists.mp hs with ⟨es, hes⟩
  refine ⟨es, hes, ?_⟩
  rw [joinM_map_g eventsSpan eventsSpan_append _ _ _ hes]
  simp [List.map_const', List.sum_replicate, Nat.smul_one_eq_cast]

def popStabsRests (T : Nat) : Nat :=
  ((List.range T).filter (fun ei => !popStabsHits.getD (ei % popStabsHits.length) false)).length

theorem sum_ite01 {β : Type} (l : List β) (q : β → Bool) :
    (l.map (fun x => if q x then 0 else 1)).sum = (l.filter (fun x => !q x)).length := by
  induction l with
  | nil => exact rfl
  | cons x xs ih =>
    cases hq : q x <;> simp [List.filter, hq, ih] <;> omega

theorem countEv_append (ev : MEvent) (a b : List MEvent) :
    (a ++ b).count ev = a.count ev + b.count ev := by
  simp [List.count_append]

theorem joinM_map_forall {α β : Type} (P : α → Prop) (f : β → Option (List α)) (l : List β)
    (r : List α) (h : joinM (l.map f) = some r)
    (hb : ∀ x ∈ l, ∀ a, f x = some a → ∀ e ∈ a, P e) : ∀ e ∈ r, P e := by
  induction l generalizing r with
  | nil => simp only [List.map_nil, joinM] at h; cases h; intro e he; cases he
  | cons y ys ih =>
    simp only [List.map_cons] at h
    cases hfy : f y with
    | none => rw [hfy] at h; exact absurd h (by simp [joinM])
    | some b =>
      rw [hfy] at h
      unfold joinM at h
      cases hr : joinM (ys.map f) with
      | none => rw [hr] at h; simp at h
      | some r' =>
        rw [hr] at h
        simp only [Option.map_some'] at h
        cases h
        intro e he
        rcases List.mem_append.mp he with h1 | h2
        · exact hb y (by simp) b hfy e h1
        · exact ih r' hr (fun x hx => hb x (by simp [hx])) e h2

theorem popStabsCase_placeholders (b : Nat) :
    ∃ es, popStabsCase [60, 64, 67] (u32 (480 * u32 b)) = some es ∧
      es.count (mkOn 0 0 0) = popStabsRests (u32 (480 * u32 b) / 240) ∧
      eventsSpan es = 240 * (u32 (480 * u32 b) / 240) ∧
      (∀ e ∈ es, e.pitch = 0 → e.vel = 0) := by
  unfold popStabsCase patLoop
  have hs := joinM_map_isSome
    (fun ei => if popStabsHits.getD (ei % popStabsHits.length) false = true then
        some (onsAll [60, 64, 67] 100 ++ offsAll 240 [60, 64, 67])
      else some (restPair 240))
    (List.range (u32 (480 * u32 b) / 240))
    (fun x _ => by dsimp only; split_ifs <;> rfl)
  rcases Option.isSome_iff_exists.mp hs with ⟨es, hes⟩
  refine ⟨es, hes, ?_, ?_, ?_⟩
  · rw [joinM_map_g (fun l => l.count (mkOn 0 0 0)) (countEv_append _) _ _ _ hes]
    rw [popStabsRests, ← sum_ite01 (List.range (u32 (480 * u32 b) / 240))
      (fun ei => popStabsHits.getD (ei % popStabsHits.length) false)]
    congr 1
    apply List.map_congr_left
    intro i _
    dsimp only
    split_ifs with hi
    · decide
    · decide
  · rw [joinM_map_g eventsSpan eventsSpan_append _ _ _ hes]
    calc ((List.range (u32 (480 * u32 b) / 240)).map
          (fun x => eventsSpan (((fun ei =>
            if popStabsHits.getD (ei % popStabsHits.length) false = true then
              some (onsAll [60, 64, 67] 100 ++ offsAll 240 [60, 64, 67])
            else some (restPair 240)) x).getD []))).sum
        = ((List.range (u32 (480 * u32 b) / 240)).map (fun _ => 240)).sum := by
          congr 1
          apply List.map_congr_left
          intro i _
          dsimp only
          split_ifs <;> decide
      _ = 240 * (u32 (480 * u32 b) / 240) := by
          simp [List.map_const', List.sum_replicate, Nat.smul_one_eq_cast]
          ring
  · have := joinM_map_forall (fun e => e.pitch = 0 → e.vel = 0) _ _ _ hes
      (fun x _ a ha e hea => by
        revert ha
        dsimp only
        split_ifs <;> (intro ha; cases ha; revert e; decide))
    exact this

theorem joinM_map_mem {α β : Type} (f : β → Option (List α)) (l : List β) (r : List α)
    (h : joinM (l.map f) = some r) (x : β) (hx : x ∈ l) (a : List α)
    (hfx : f x = some a) (e : α) (he : e ∈ a) : e ∈ r := by
  induction l generalizing r with
  | nil => cases hx
  | cons y ys ih =>
    simp only [List.map_cons] at h
    cases hfy : f y with
    | none => rw [hfy] at h; exact absurd h (by simp [joinM])
    | some b =>
      rw [hfy] at h
      unfold joinM at h
      cases hr : joinM (ys.map f) with
      | none => rw [hr] at h; simp at h
      | some r' =>
        rw [hr] at h
        simp only [Option.map_some'] at h
        cases h
        rcases List.mem_cons.mp hx with rfl | hx'
        · rw [hfy] at hfx; cases hfx; exact List.mem_append_left _ he
        · exact List.mem_append_right _ (ih r' hr hx')

theorem fretsToMidi_single (v : Nat) : fretsToMidi ["0"] [(v : Int)] = [v % 256] := by
  simp [fretsToMidi, atoi, digitsVal, sortInts, insertAsc, toByte, List.enum]
  show ((v : Int) % 256).toNat = v % 256
  omega

theorem oneString_notes (p : String) (v : Nat) (hv : v < 256) :
    resolveNotes (oneStringReq p (v : Int)) 0 "C" = [v] := by
  unfold resolveNotes oneStringReq
  simp only []
  have hf : fretsToMidi ([["0"]].getD 0 []) [(v : Int)] = [v] := by
    rw [show [["0"]].getD 0 [] = ["0"] from rfl, fretsToMidi_single v, Nat.mod_eq_of_lt hv]
  rw [hf]
  simp

theorem buildTrackEvents_oneString (p : String) (v : Nat) (hv : v < 256) :
    buildTrackEvents (oneStringReq p (v : Int)) = chordEvents p [v] 4 := by
  unfold buildTrackEvents
  show joinM [chordEvents p (resolveNotes (oneStringReq p (v : Int)) 0 "C") 4] = _
  rw [oneString_notes p v hv]
  cases chordEvents p [v] 4 <;> simp [joinM]

theorem bsub12_low (v : Nat) (hv : v < 12) : bsub12 v = v + 244 := by
  unfold bsub12; omega

theorem boomChick_wrap (v : Nat) :
    ∃ es, chordEvents "boom-chick" [v] 4 = some es ∧ mkOn 0 (bsub12 v) 100 ∈ es := by
  rw [show chordEvents "boom-chick" [v] 4 = boomChickCase [v] 4 from rfl]
  unfold boomChickCase
  simp only [List.getElem?_cons_zero, Option.some_bind]
  rcases Option.isSome_iff_exists.mp (joinM_map_isSome
    (fun _ => some (onsAll (if ([v] : List Nat).tail = [] then [v] else [v].tail) 90
      ++ offsAll 480 (if ([v] : List Nat).tail = [] then [v] else [v].tail)))
    (List.range (4 - 1)) (fun x _ => rfl)) with ⟨rest, hrest⟩
  refine ⟨notePair 480 (bsub12 v) 100 ++ rest, ?_,
    List.mem_append_left _ (List.mem_cons_self _ _)⟩
  show (patLoop (4 - 1) _).map _ = _
  rw [show patLoop (4 - 1) (fun _ =>
      some (onsAll (if ([v] : List Nat).tail = [] then [v] else [v].tail) 90
        ++ offsAll 480 (if ([v] : List Nat).tail = [] then [v] else [v].tail))) = some rest
    from hrest]
  rfl

theorem bossa_wrap (v : Nat) :
    ∃ es, chordEvents "bossa-nova" [v] 4 = some es ∧ mkOn 0 (bsub12 v) 100 ∈ es := by
  rw [show chordEvents "bossa-nova" [v] 4 = bossaCase [v] 1920 from rfl]
  unfold bossaCase patLoop
  simp only []
  rcases Option.isSome_iff_exists.mp (joinM_map_isSome
    (fun ei => (if ei % 4 = 0 then
        (([v] : List Nat)[0]?).map (fun n0 => notePair 240 (bsub12 n0) 100)
      else some []).bind (fun bassPart =>
      some (bassPart ++
        (if [true, false, true, false, false, true, false, true].getD (ei % 8) false then
          onsAll [v] 90 ++ offsAll 240 [v]
         else if ei % 4 ≠ 0 then restPair 240
         else []))))
    (List.range (1920 / 240))
    (fun x _ => by by_cases hx : x % 4 = 0 <;> simp [hx])) with ⟨es, hes⟩
  refine ⟨es, hes, ?_⟩
  refine joinM_map_mem _ _ _ hes 0 (by decide) _ rfl _ ?_
  exact List.mem_append_left _ (List.mem_cons_self _ _)

theorem standByMe_wrap (v : Nat) :
    ∃ es, chordEvents "stand-by-me" [v] 4 = some es ∧ mkOn 0 (bsub12 v) 110 ∈ es := by
  rw [show chordEvents "stand-by-me" [v] 4 = standByMeCase [v] from rfl]
  unfold standByMeCase patLoop
  simp only [List.getElem?_cons_zero, Option.some_bind]
  rcases Option.isSome_iff_exists.mp (joinM_map_isSome
    (fun ei =>
      if ([1, 0, 1, 0, 2, 0, 2, 0] : List Nat).getD (ei % ([1, 0, 1, 0, 2, 0, 2, 0] : List Nat).length) 0 = 1 then
        some (notePair 240 (bsub12 v) 110)
      else if ([1, 0, 1, 0, 2, 0, 2, 0] : List Nat).getD (ei % ([1, 0, 1, 0, 2, 0, 2, 0] : List Nat).length) 0 = 2 then
        some (onsAll [v] 90 ++ offsAll 240 [v])
      else some (restPair 240))
    (List.range 8)
    (fun x _ => by
      simp only [List.getD_eq_getElem?_getD]
      split_ifs <;> rfl)) with ⟨es, hes⟩
  refine ⟨es, hes, ?_⟩
  refine joinM_map_mem _ _ _ hes 0 (by decide) _ rfl _ ?_
  exact List.mem_cons_self _ _

theorem country_wrap (v : Nat) :
    ∃ es, chordEvents "country-alt-bass" [v] 4 = some es ∧ mkOn 0 (bsub12 v) 110 ∈ es := by
  rw [show chordEvents "country-alt-bass" [v] 4 = countryCase [v] from rfl]
  unfold countryCase patLoop
  simp only [List.getElem?_cons_zero, Option.some_bind]
  rcases Option.isSome_iff_exists.mp (joinM_map_isSome
    (fun beat =>
      if beat = 0 then some (notePair 480 (bsub12 v) 110)
      else if beat = 2 then
        some (notePair 480 (bsub12
          (if 60 < (if 2 < ([v] : List Nat).length then ([v] : List Nat).getD 2 0 else (v + 7) % 256) then
            bsub12 (if 2 < ([v] : List Nat).length then ([v] : List Nat).getD 2 0 else (v + 7) % 256)
          else (if 2 < ([v] : List Nat).length then ([v] : List Nat).getD 2 0 else (v + 7) % 256))) 110)
      else some (onsAll [v] 90 ++ offsAll 480 [v]))
    (List.range 4)
    (fun x _ => by
      simp only [List.getD_eq_getElem?_getD]
      split_ifs <;> rfl)) with ⟨es, hes⟩
  refine ⟨es, hes, ?_⟩
  refine joinM_map_mem _ _ _ hes 0 (by decide) _ rfl _ ?_
  exact List.mem_cons_self _ _

theorem c10thm (p : String)
    (hp : p ∈ ["boom-chick", "bossa-nova", "stand-by-me", "country-alt-bass"])
    (v : Nat) (hv : v < 12) :
    ∃ es, buildTrackEvents (oneStringReq p (v : Int)) = some es ∧
      ∃ e ∈ es, e.isOn = true ∧ e.pitch = v + 244 ∧ 127 < e.pitch := by
  rw [buildTrackEvents_oneString p v (by omega)]
  have hb := bsub12_low v hv
  fin_cases hp
  · rcases boomChick_wrap v with ⟨es, hes, hmem⟩
    exact ⟨es, hes, mkOn 0 (bsub12 v) 100, hmem, rfl, by simp [mkOn, hb], by simp [mkOn, hb]⟩
  · rcases bossa_wrap v with ⟨es, hes, hmem⟩
    exact ⟨es, hes, mkOn 0 (bsub12 v) 100, hmem, rfl, by simp [mkOn, hb], by simp [mkOn, hb]⟩
  · rcases standByMe_wrap v with ⟨es, hes, hmem⟩
    exact ⟨es, hes, mkOn 0 (bsub12 v) 110, hmem, rfl, by simp [mkOn, hb], by simp [mkOn, hb]⟩
  · rcases country_wrap v with ⟨es, hes, hmem⟩
    exact ⟨es, hes, mkOn 0 (bsub12 v) 110, hmem, rfl, by simp [mkOn, hb], by simp [mkOn, hb]⟩

theorem vlqGroupsAux_congr : ∀ (v f1 f2 : Nat), v ≤ f1 → v ≤ f2 →
    vlqGroupsAux f1 v = vlqGroupsAux f2 v := by
  intro v
  induction v using Nat.strong_induction_on with
  | _ v ih =>
    intro f1 f2 h1 h2
    match v, f1, f2 with
    | 0, 0, 0 => rfl
    | 0, 0, f2 + 1 => simp [vlqGroupsAux]
    | 0, f1 + 1, 0 => simp [vlqGroupsAux]
    | 0, f1 + 1, f2 + 1 => simp [vlqGroupsAux]
    | v + 1, f1 + 1, f2 + 1 =>
      simp only [vlqGroupsAux]
      rw [if_neg (by omega), if_neg (by omega)]
      have hd : (v + 1) / 128 < v + 1 := Nat.div_lt_self (by omega) (by norm_num)
      rw [ih ((v + 1) / 128) hd f1 f2 (by omega) (by omega)]

theorem vlqGroups_step (v : Nat) (hv : 0 < v) : vlqGroups v = vlqGroups (v / 128) + 1 := by
  unfold vlqGroups
  obtain ⟨f, rfl⟩ : ∃ f, v = f + 1 := ⟨v - 1, by omega⟩
  simp only [vlqGroupsAux]
  rw [if_neg (by omega)]
  congr 1
  exact vlqGroupsAux_congr _ _ _ (by omega) (le_refl _)

theorem vlqGroups_zero : vlqGroups 0 = 0 := rfl

theorem vlqGroups_one_digit (v : Nat) (h1 : 0 < v) (h2 : v < 128) : vlqGroups v = 1 := by
  rw [vlqGroups_step v h1, Nat.div_eq_of_lt h2, vlqGroups_zero]

theorem vlqGroups_two (v : Nat) (h1 : 128 ≤ v) (h2 : v < 16384) : vlqGroups v = 2 := by
  rw [vlqGroups_step v (by omega), vlqGroups_one_digit (v / 128) (by omega) (by omega)]

theorem vlqGroups_three (v : Nat) (h1 : 16384 ≤ v) (h2 : v < 2097152) : vlqGroups v = 3 := by
  rw [vlqGroups_step v (by omega), vlqGroups_two (v / 128) (by omega) (by omega)]

theorem vlqGroups_four (v : Nat) (h1 : 2097152 ≤ v) (h2 : v < 268435456) : vlqGroups v = 4 := by
  rw [vlqGroups_step v (by omega), vlqGroups_three (v / 128) (by omega) (by omega)]

theorem or128_mod (x : Nat) (h : x < 128) : (x ||| 128) % 128 = x := by
  revert h
  revert x
  decide

theorem and127 (x : Nat) : x &&& 127 = x % 128 := by
  have := Nat.and_pow_two_sub_one_eq_mod x 7
  norm_num at this
  exact this

theorem shr7 (x : Nat) (k : Nat) : x >>> k = x / 2 ^ k := Nat.shiftRight_eq_div_pow x k

theorem c8_roundtrip (v : Nat) (hv : v < 268435456) :
    ∃ bs, varLen v = some bs ∧ vlqDecode bs = v := by
  unfold varLen
  by_cases h1 : v < 128
  · exact ⟨[v], by simp [h1], by simp [vlqDecode, Nat.mod_eq_of_lt h1]⟩
  rw [if_neg h1]
  by_cases h2 : v < 16384
  · rw [vlqGroups_two v (by omega) h2, if_pos (by norm_num)]
    refine ⟨_, rfl, ?_⟩
    simp only [List.range_succ, List.range_zero, List.map_append, List.map_cons, List.map_nil,
      List.nil_append, vlqDecode, List.foldl]
    norm_num
    rw [and127, and127, shr7, or128_mod _ (by omega)]
    norm_num
    omega
  by_cases h3 : v < 2097152
  · rw [vlqGroups_three v (by omega) h3, if_pos (by norm_num)]
    refine ⟨_, rfl, ?_⟩
    simp only [List.range_succ, List.range_zero, List.map_append, List.map_cons, List.map_nil,
      List.nil_append, vlqDecode, List.foldl]
    norm_num
    rw [and127, and127, and127, shr7, shr7, or128_mod _ (by omega), or128_mod _ (by omega)]
    norm_num
    omega
  · rw [vlqGroups_four v (by omega) (by omega), if_pos (by norm_num)]
    refine ⟨_, rfl, ?_⟩
    simp only [List.range_succ, List.range_zero, List.map_append, List.map_cons, List.map_nil,
      List.nil_append, vlqDecode, List.foldl]
    norm_num
    rw [and127, and127, and127, and127, shr7, shr7, shr7,
      or128_mod _ (by omega), or128_mod _ (by omega), or128_mod _ (by omega)]
    norm_num
    omega

set_option maxRecDepth 40000 in

theorem getTransposition_left_zero (f k : String)
    (hf : chromatic.findIdx? (fun n => n == f) = none) : getTransposition f k = 0 := by
  unfold getTransposition
  rw [hf]
  simp

theorem getTransposition_right_zero (k f : String)
    (hf : chromatic.findIdx? (fun n => n == f) = none) : getTransposition k f = 0 := by
  unfold getTransposition
  rw [hf]
  simp

theorem chromatic_parse (i : Nat) (hi : i < 12) (s : String)
    (hs : ∀ c ∈ s.toList.head?, ¬(c = '#' ∨ c = 'b')) :
    chordRootIndex (chromatic.getD i "" ++ s) = (i : Int) ∧
    chordSuffix (chromatic.getD i "" ++ s) = s := by
  obtain ⟨dd⟩ := s
  rcases dd with _ | ⟨d, t⟩
  · interval_cases i <;> exact ⟨by decide, by decide⟩
  · have hd : ¬(d = '#' ∨ d = 'b') := hs d (by simp [String.toList])
    interval_cases i <;>
      refine ⟨?_, ?_⟩ <;>
      · simp only [chordRootIndex, chordSuffix, chromatic, List.getD, List.getElem?_cons_zero,
          List.getElem?_cons_succ, Option.getD_some]
        simp [String.toList, String.data_append, rootChars, flatToSharp, hd]
        try decide

theorem tmod_norm (x : Int) : Int.tmod (Int.tmod x 12 + 12) 12 = x % 12 := by
  have hneg : ∀ y : Int, Int.tmod (-y) 12 = -(Int.tmod y 12) := by
    intro y; rw [Int.tmod_def, Int.tmod_def, Int.neg_tdiv]; ring
  have h1 : Int.tmod x 12 < 12 := Int.tmod_lt_of_pos x (by norm_num)
  have h2 : -12 < Int.tmod x 12 := by
    have h := Int.tmod_lt_of_pos (-x) (show (0:Int) < 12 by norm_num)
    rw [hneg] at h; omega
  have hxd : Int.tmod x 12 = x - 12 * (x.tdiv 12) := Int.tmod_def x 12
  rw [Int.tmod_eq_emod (by omega) (by norm_num)]
  omega

theorem transpose_parsed (i : Nat) (hi : i < 12) (s : String)
    (hs : ∀ c ∈ s.toList.head?, ¬(c = '#' ∨ c = 'b')) (n : Int) :
    transposeChord (chromatic.getD i "" ++ s) n =
      chromatic.getD ((((i : Int) + n).tmod 12 + 12).tmod 12).toNat "" ++ s := by
  obtain ⟨hroot, hsfx⟩ := chromatic_parse i hi s hs
  unfold transposeChord
  rw [hroot, hsfx]
  simp [show ¬((i : Int) = -1) from by omega]

/-!  ## Claim theorems  -/

theorem reggaeCase_placeholders (b : Nat) :
    ∃ es, reggaeCase [60, 64, 67] b = some es ∧
      es.count (mkOn 0 0 0) = b ∧
      eventsSpan es = 480 * b ∧
      (∀ e ∈ es, e.pitch = 0 → e.vel = 0) := by
  unfold reggaeCase patLoop
  rcases Option.isSome_iff_exists.mp (joinM_map_isSome
    (fun beat => if beat % 2 = 1 then
        some (onsAll [60, 64, 67] 110 ++ offsAll (480 / 4) [60, 64, 67] ++ restPair (3 * 480 / 4))
      else some (restPair 480))
    (List.range b) (fun x _ => by
      by_cases hx : x % 2 = 1 <;> simp [hx])) with ⟨es, hes⟩
  refine ⟨es, hes, ?_, ?_, ?_⟩
  · rw [joinM_map_g (fun l => l.count (mkOn 0 0 0)) (countEv_append _) _ _ _ hes]
    calc ((List.range b).map _).sum
        = ((List.range b).map (fun _ => 1)).sum := by
          congr 1
          apply List.map_congr_left
          intro i _
          by_cases hi : i % 2 = 1 <;> simp [hi] <;> decide
      _ = b := by simp [List.map_const', List.sum_replicate]
  · rw [joinM_map_g eventsSpan eventsSpan_append _ _ _ hes]
    calc ((List.range b).map _).sum
        = ((List.range b).map (fun _ => 480)).sum := by
          congr 1
          apply List.map_congr_left
          intro i _
          by_cases hi : i % 2 = 1 <;> simp [hi] <;> decide
      _ = 480 * b := by
          simp [List.map_const', List.sum_replicate, Nat.smul_one_eq_cast]
          ring
  · exact joinM_map_forall _ _ _ _ hes (fun x _ a ha e hea => by
      revert ha
      by_cases hx : x % 2 = 1 <;> simp only [hx, if_pos, if_neg, if_true, if_false] <;>
        (intro ha; cases ha; revert e; decide))


/-- C1 (code bug): the fret-mode boundary request (open-string value 120, fret
10) is accepted and the final track byte stream carries the NoteOn pitch byte
130 (= 120 + 10 > 127): nothing excludes out-of-range pitches before emission,
contradicting the spec's §8 boundary and `TestFretsToMidi_OutOfRange`.  The
some-value below is the entire MTrk data: tempo event, `NoteOn 130`,
`NoteOff 130`, end of track. -/
theorem c1_out_of_range_pitch_emitted :
    buildTrack boundaryReq =
      some [0, 255, 81, 3, 7, 161, 32, 0, 144, 130, 100, 143, 0, 128, 130, 0, 0, 255, 47, 0] ∧
    (∃ es, buildTrackEvents boundaryReq = some es ∧ MEvent.mk 0 true 130 100 ∈ es) ∧
    127 < 130 := by
  refine ⟨by decide, ⟨(buildTrackEvents boundaryReq).getD [], by decide, by decide⟩, by decide⟩

/-- C2 (code bug): a fret-mode request resolving to the one-note NoteSet [40]
under "stairway-arpeggio" (or "sweet-home-alabama") makes `buildTrack` index
`notes[1]` (resp. `notes[len-2]`) out of range — a Go runtime panic, modelled
as `none` — instead of clamping to the last valid index. -/
theorem c2_stairway_one_note_faults :
    resolveNotes (oneStringReq "stairway-arpeggio" 40) 0 "C" = [40] ∧
    buildTrackEvents (oneStringReq "stairway-arpeggio" 40) = none ∧
    buildTrackEvents (oneStringReq "sweet-home-alabama" 40) = none := by
  refine ⟨by decide, by decide, by decide⟩

/-- C3 counterexample: "Bb" has a resolvable root (index 10) and 1 lies in
[-24, 24], yet transposing by 1 and back yields "A#", not "Bb" — the round
trip respells flat roots in sharp form. -/
theorem c3_flat_root_not_restored :
    chordRootIndex "Bb" ≠ -1 ∧ ((-24 : Int) ≤ 1 ∧ (1 : Int) ≤ 24) ∧
    transposeChord (transposeChord "Bb" 1) (-1) = "A#" ∧ ("A#" : String) ≠ "Bb" := by
  exact ⟨by decide, by norm_num, by decide, by decide⟩

/-- C3 amended: for every chord symbol whose root is spelled as one of the 12
sharp-form chromatic names (and whose suffix does not begin with an accidental
character), transposing by n and then by -n restores the symbol exactly, for
every n in [-24, 24]. -/
theorem c3_transpose_roundtrip_sharp_roots (i : Nat) (hi : i < 12) (s : String)
    (hs : ∀ c ∈ s.toList.head?, ¬(c = '#' ∨ c = 'b')) (n : Int)
    (_hn1 : -24 ≤ n) (_hn2 : n ≤ 24) :
    transposeChord (transposeChord (chromatic.getD i "" ++ s) n) (-n) =
      chromatic.getD i "" ++ s := by
  rw [transpose_parsed i hi s hs n]
  have hj : ((((i : Int) + n).tmod 12 + 12).tmod 12).toNat < 12 := by
    have := tmod_norm ((i : Int) + n)
    omega
  rw [transpose_parsed _ hj s hs (-n)]
  have h1 := tmod_norm ((i : Int) + n)
  have h2 := tmod_norm (((((i : Int) + n).tmod 12 + 12).tmod 12).toNat + -n)
  have h3 : (((((((i : Int) + n).tmod 12 + 12).tmod 12).toNat : Int) + -n).tmod 12 + 12).tmod 12
      = (i : Int) := by omega
  rw [h3]
  simp

/-- Witness for C3: the round trip at root A# (index 10), suffix "m", n = 1. -/
theorem c3_transpose_roundtrip_sharp_roots_witness :
    transposeChord (transposeChord (chromatic.getD 10 "" ++ "m") 1) (-1) =
      chromatic.getD 10 "" ++ "m" :=
  c3_transpose_roundtrip_sharp_roots 10 (by norm_num) "m" (by decide) 1 (by norm_num) (by norm_num)

/-- C4 counterexample: with beats = 2, the creep-arpeggio pattern still emits
its fixed 8 eighth-note slots, so the chord's event stream spans 1920 ticks,
not the chord duration 2 × 480 = 960. -/
theorem c4_creep_fixed_span_counterexample :
    ∃ es, buildTrackEvents (oneChordReq "creep-arpeggio" 2) = some es ∧
      eventsSpan es = 1920 ∧ 480 * 2 = 960 ∧ eventsSpan es ≠ 480 * 2 := by
  exact ⟨(buildTrackEvents (oneChordReq "creep-arpeggio" 2)).getD [],
    by decide, by decide, by decide, by decide⟩

/-- C4 amended: patterns with computed subdivision counts (exemplified by
"quarter") emit `beats` slots spanning the full chord duration 480 × beats for
every beats value, while each of the thirteen fixed-cycle patterns
(stand-by-me, creep-arpeggio, twist-and-shout, sweet-home-alabama,
stairway-arpeggio, hotel-california, wonderwall-strum, blackbird-pick,
palm-mute-8th, off-beat-8th, country-alt-bass, pima-arpeggio,
four-on-the-floor) always emits a fixed four-beat cycle spanning 1920 ticks
regardless of beats — equal to the chord duration 480 × beats, i.e. to
totalTicks / subdivisionTicks slots of the subdivision, only when
beats = 4. -/
theorem c4_slot_spans_amended (b : Nat) :
    (∀ p ∈ (["stand-by-me", "creep-arpeggio", "twist-and-shout", "sweet-home-alabama",
        "stairway-arpeggio", "hotel-california", "wonderwall-strum", "blackbird-pick",
        "palm-mute-8th", "off-beat-8th", "country-alt-bass", "pima-arpeggio",
        "four-on-the-floor"] : List String),
      ∃ es, buildTrackEvents (oneChordReq p b) = some es ∧ eventsSpan es = 1920 ∧
        (eventsSpan es = 480 * b ↔ b = 4)) ∧
    (∃ es, buildTrackEvents (oneChordReq "quarter" b) = some es ∧
      eventsSpan es = 480 * b) := by
  have hiff : ∀ es : List MEvent, eventsSpan es = 1920 →
      (eventsSpan es = 480 * b ↔ b = 4) := by
    intro es h
    rw [h]
    omega
  constructor
  · intro p hp
    fin_cases hp
    · exact ⟨(standByMeCase [60, 64, 67]).getD [],
        by rw [buildTrackEvents_oneChord]; rfl, by decide, hiff _ (by decide)⟩
    · exact ⟨(creepCase [60, 64, 67]).getD [],
        by rw [buildTrackEvents_oneChord]; rfl, by decide, hiff _ (by decide)⟩
    · exact ⟨(twistCase [60, 64, 67]).getD [],
        by rw [buildTrackEvents_oneChord]; rfl, by decide, hiff _ (by decide)⟩
    · exact ⟨(sweetHomeCase [60, 64, 67]).getD [],
        by rw [buildTrackEvents_oneChord]; rfl, by decide, hiff _ (by decide)⟩
    · exact ⟨(stairwayCase [60, 64, 67]).getD [],
        by rw [buildTrackEvents_oneChord]; rfl, by decide, hiff _ (by decide)⟩
    · exact ⟨(hotelCase [60, 64, 67]).getD [],
        by rw [buildTrackEvents_oneChord]; rfl, by decide, hiff _ (by decide)⟩
    · exact ⟨(wonderwallCase [60, 64, 67]).getD [],
        by rw [buildTrackEvents_oneChord]; rfl, by decide, hiff _ (by decide)⟩
    · exact ⟨(blackbirdCase [60, 64, 67]).getD [],
        by rw [buildTrackEvents_oneChord]; rfl, by decide, hiff _ (by decide)⟩
    · exact ⟨(palmMuteCase [60, 64, 67]).getD [],
        by rw [buildTrackEvents_oneChord]; rfl, by decide, hiff _ (by decide)⟩
    · exact ⟨(offBeatCase [60, 64, 67]).getD [],
        by rw [buildTrackEvents_oneChord]; rfl, by decide, hiff _ (by decide)⟩
    · exact ⟨(countryCase [60, 64, 67]).getD [],
        by rw [buildTrackEvents_oneChord]; rfl, by decide, hiff _ (by decide)⟩
    · exact ⟨(pimaCase [60, 64, 67]).getD [],
        by rw [buildTrackEvents_oneChord]; rfl, by decide, hiff _ (by decide)⟩
    · exact ⟨(fourFloorCase [60, 64, 67]).getD [],
        by rw [buildTrackEvents_oneChord]; rfl, by decide, hiff _ (by decide)⟩
  · rw [buildTrackEvents_oneChord,
      show chordEvents "quarter" [60, 64, 67] b = quarterCase [60, 64, 67] b from rfl]
    rcases quarterCase_span [60, 64, 67] b with ⟨es, hes, hspan⟩
    refine ⟨es, hes, ?_⟩
    rw [hspan, show eventsSpan (onsAll [60, 64, 67] 100 ++ offsAll 480 [60, 64, 67]) = 480
      from by decide]
    omega

/-- Witness for C4: the amended statement applied at beats = 2 for
creep-arpeggio — the stream spans 1920 ticks and 1920 ≠ 480 × 2, so the
span-equals-chord-duration clause correctly fails at beats 2. -/
theorem c4_slot_spans_amended_witness :
    ∃ es, buildTrackEvents (oneChordReq "creep-arpeggio" 2) = some es ∧
      eventsSpan es = 1920 ∧ (eventsSpan es = 480 * 2 ↔ (2 : Nat) = 4) :=
  (c4_slot_spans_amended 2).1 "creep-arpeggio" (by decide)

/-- C5 counterexample: on a pop-stabs request the rest slots do append NoteOn
and NoteOff bytes: the track events contain 4 placeholder NoteOns (pitch 0,
velocity 0) with matching NoteOffs, and the serialized track bytes carry the
placeholder NoteOn byte sequence 00 90 00 00 (here at offset 32, right after
the first rest slot is reached) — not "no bytes of any kind". -/
theorem c5_rest_placeholder_counterexample :
    (∃ es, buildTrackEvents (oneChordReq "pop-stabs" 4) = some es ∧
      es.count (mkOn 0 0 0) = 4 ∧ es.count (mkOff 240 0) = 4 ∧ (4 : Nat) ≠ 0) ∧
    (∃ bs, buildTrack (oneChordReq "pop-stabs" 4) = some bs ∧
      (bs.drop 32).take 4 = [0, 144, 0, 0]) := by
  constructor
  · exact ⟨(buildTrackEvents (oneChordReq "pop-stabs" 4)).getD [],
      by decide, by decide, by decide, by decide⟩
  · exact ⟨(buildTrack (oneChordReq "pop-stabs" 4)).getD [], by decide, by decide⟩

/-- C5 amended: for the cited rest-bearing patterns (pop-stabs, reggae-skank)
and every beats value, a rest slot advances the cumulative tick position by
its duration by appending a placeholder NoteOn with pitch 0 and velocity 0
plus a matching NoteOff carrying the rest duration — rather than appending
nothing — and rests contribute no audible events: every event with pitch 0
has velocity 0.  The stream spans one slot duration per subdivision slot. -/
theorem c5_rest_placeholders_amended (b : Nat) :
    (∃ es, buildTrackEvents (oneChordReq "pop-stabs" b) = some es ∧
      es.count (mkOn 0 0 0) = popStabsRests (u32 (480 * u32 b) / 240) ∧
      eventsSpan es = 240 * (u32 (480 * u32 b) / 240) ∧
      (∀ e ∈ es, e.pitch = 0 → e.vel = 0)) ∧
    (∃ es, buildTrackEvents (oneChordReq "reggae-skank" b) = some es ∧
      es.count (mkOn 0 0 0) = b ∧ eventsSpan es = 480 * b ∧
      (∀ e ∈ es, e.pitch = 0 → e.vel = 0)) := by
  constructor
  · rw [buildTrackEvents_oneChord, show chordEvents "pop-stabs" [60, 64, 67] b
      = popStabsCase [60, 64, 67] (u32 (480 * u32 b)) from rfl]
    exact popStabsCase_placeholders b
  · rw [buildTrackEvents_oneChord, show chordEvents "reggae-skank" [60, 64, 67] b
      = reggaeCase [60, 64, 67] b from rfl]
    exact reggaeCase_placeholders b

/-- Witness for C5: the amended statement applied at beats = 4, reading off
the placeholder count of the reggae-skank stream. -/
theorem c5_rest_placeholders_amended_witness :
    ∃ es, buildTrackEvents (oneChordReq "reggae-skank" 4) = some es ∧
      es.count (mkOn 0 0 0) = 4 ∧ eventsSpan es = 480 * 4 ∧
      (∀ e ∈ es, e.pitch = 0 → e.vel = 0) :=
  (c5_rest_placeholders_amended 4).2

/-- C6 counterexample: under let-it-be (chords ["C"], beats 4) the lowered
root pitch 48 receives 2 NoteOns but 4 NoteOffs — the NoteOff for
`notes[0]-12` is emitted on every beat while its NoteOn only on even beats,
so the track has surplus NoteOffs. -/
theorem c6_let_it_be_surplus_noteoffs :
    ∃ es, buildTrackEvents (oneChordReq "let-it-be" 4) = some es ∧
      countOn 48 es = 2 ∧ countOff 48 es = 4 ∧ countOn 48 es ≠ countOff 48 es := by
  exact ⟨(buildTrackEvents (oneChordReq "let-it-be" 4)).getD [],
    by decide, by decide, by decide, by decide⟩

/-- C6 amended: for every request whose pattern is not "let-it-be", the
generated event stream is balanced — every pitch carries exactly as many
NoteOn as NoteOff events before the end-of-track marker.  (The let-it-be
pattern violates this by emitting one surplus NoteOff for the lowered root on
every odd beat.) -/
theorem c6_noteon_noteoff_balance_amended (req : MidiRequest) (es : List MEvent)
    (hp : req.pattern ≠ "let-it-be") (h : buildTrackEvents req = some es) (p : Nat) :
    countOn p es = countOff p es := by
  unfold buildTrackEvents at h
  rw [joinM_map_g (countOn p) (countOn_append p) _ _ _ h,
    joinM_map_g (countOff p) (countOff_append p) _ _ _ h]
  congr 1
  apply List.map_congr_left
  intro pr _
  cases hce : chordEvents req.pattern (resolveNotes req pr.1 pr.2) req.beats with
  | none => rfl
  | some cs => simpa [hce] using chordEvents_balanced _ _ _ hp cs hce p

/-- Witness for C6: balance at pitch 60 of the one-beat quarter stream. -/
theorem c6_noteon_noteoff_balance_amended_witness :
    countOn 60 [mkOn 0 60 100, mkOn 0 64 100, mkOn 0 67 100,
      mkOff 480 60, mkOff 0 64, mkOff 0 67] =
    countOff 60 [mkOn 0 60 100, mkOn 0 64 100, mkOn 0 67 100,
      mkOff 480 60, mkOff 0 64, mkOff 0 67] :=
  c6_noteon_noteoff_balance_amended (oneChordReq "quarter" 1)
    [mkOn 0 60 100, mkOn 0 64 100, mkOn 0 67 100, mkOff 480 60, mkOff 0 64, mkOff 0 67]
    (by decide) (by decide) 60

set_option maxRecDepth 100000 in
/-- C7: for every one of the 31 catalog pattern names, `buildMidi` on the
2-chord, 4-beat, tempo-120 request succeeds and yields bytes that begin with
"MThd", header length 6 (big-endian), format 0, one track, division 480
(bytes 01 E0), carry "MTrk" at byte offset 14, and follow it with the
big-endian u32 length of the remaining track data. -/
theorem c7_smf_structure_all_patterns (p : String) (hp : p ∈ patternCatalog) :
    (buildMidi (twoChordReq p)).isSome = true ∧
    ((buildMidi (twoChordReq p)).getD []).take 14 =
      [77, 84, 104, 100, 0, 0, 0, 6, 0, 0, 0, 1, 1, 224] ∧
    (((buildMidi (twoChordReq p)).getD []).drop 14).take 4 = [77, 84, 114, 107] ∧
    (((buildMidi (twoChordReq p)).getD []).drop 18).take 4 =
      be32 (((buildMidi (twoChordReq p)).getD []).length - 22) := by
  fin_cases hp <;> exact ⟨by decide, by decide, by decide, by decide⟩

/-- Witness for C7: the structure holds for the "whole" pattern. -/
theorem c7_smf_structure_all_patterns_witness :
    (buildMidi (twoChordReq "whole")).isSome = true ∧
    ((buildMidi (twoChordReq "whole")).getD []).take 14 =
      [77, 84, 104, 100, 0, 0, 0, 6, 0, 0, 0, 1, 1, 224] ∧
    (((buildMidi (twoChordReq "whole")).getD []).drop 14).take 4 = [77, 84, 114, 107] ∧
    (((buildMidi (twoChordReq "whole")).getD []).drop 18).take 4 =
      be32 (((buildMidi (twoChordReq "whole")).getD []).length - 22) :=
  c7_smf_structure_all_patterns "whole" (by decide)

/-- C8 counterexample: 2^28 is a uint32 value, but `varLen` needs five 7-bit
groups for it and writes past its fixed 4-byte buffer — a Go panic, modelled
as `none` — so the encoder does not round-trip every uint32. -/
theorem c8_varlen_fifth_group_panics :
    varLen 268435456 = none ∧ (268435456 : Nat) < 4294967296 := by
  exact ⟨by decide, by decide⟩

/-- C8 amended: for every value below 2^28 (everything encodable in the
4-byte buffer, which covers the claim's values 0, 127, 128, 16383 and 16384),
decoding the emitted bytes with a standard VLQ reader reproduces the value. -/
theorem c8_varlen_roundtrip_amended (v : Nat) (hv : v < 268435456) :
    ∃ bs, varLen v = some bs ∧ vlqDecode bs = v :=
  c8_roundtrip v hv

/-- Witness for C8: the round trip at the multi-byte boundary 16384. -/
theorem c8_varlen_roundtrip_amended_witness :
    ∃ bs, varLen 16384 = some bs ∧ vlqDecode bs = 16384 :=
  c8_varlen_roundtrip_amended 16384 (by norm_num)

/-- C9: each flat-form key name (Db, Eb, Gb, Ab, Bb) is unknown to
`getTransposition` — which compares against the sharp-form chromatic names
only and silently returns 0 in either argument position for every other key —
even though the very same spelling resolves as a chord root via the
flat-to-sharp normalization of `chordRootIndex`. -/
theorem c9_flat_keys_silent_zero :
    ∀ f ∈ ["Db", "Eb", "Gb", "Ab", "Bb"],
      chordRootIndex f ≠ -1 ∧
        ∀ k : String, getTransposition f k = 0 ∧ getTransposition k f = 0 := by
  intro f hf
  fin_cases hf <;>
    exact ⟨by decide, fun k =>
      ⟨getTransposition_left_zero _ _ (by decide), getTransposition_right_zero _ _ (by decide)⟩⟩

/-- Witness for C9: the flat key "Bb" resolves as a chord root but yields a
zero key distance against "C" in both directions. -/
theorem c9_flat_keys_silent_zero_witness :
    chordRootIndex "Bb" ≠ -1 ∧ getTransposition "Bb" "C" = 0 ∧ getTransposition "C" "Bb" = 0 := by
  obtain ⟨h1, h2⟩ := c9_flat_keys_silent_zero "Bb" (by decide)
  exact ⟨h1, (h2 "C").1, (h2 "C").2⟩

/-- C10: in the four bass-note patterns the bass pitch is the lowest resolved
note minus 12 in unsigned 8-bit arithmetic; for every one-string fret request
whose open-string value v is below 12 the subtraction wraps to v + 244 > 127
and that pitch byte is emitted as a NoteOn — no clamping or skipping. -/
theorem c10_bass_octave_wraps_above_127 (p : String)
    (hp : p ∈ ["boom-chick", "bossa-nova", "stand-by-me", "country-alt-bass"])
    (v : Nat) (hv : v < 12) :
    ∃ es, buildTrackEvents (oneStringReq p (v : Int)) = some es ∧
      ∃ e ∈ es, e.isOn = true ∧ e.pitch = v + 244 ∧ 127 < e.pitch :=
  c10thm p hp v hv

/-- Witness for C10: boom-chick over the one-string NoteSet [5] emits a
NoteOn with pitch 249. -/
theorem c10_bass_octave_wraps_above_127_witness :
    ∃ es, buildTrackEvents (oneStringReq "boom-chick" (5 : Int)) = some es ∧
      ∃ e ∈ es, e.isOn = true ∧ e.pitch = 5 + 244 ∧ 127 < e.pitch :=
  c10_bass_octave_wraps_above_127 "boom-chick" (by decide) 5 (by decide)

end GuitarTutor
